import Mathlib

/-!
Verification of the Anubis Elo backtest engine (`src/anubis_elo/eval/backtest.py`).

The Python program is shallowly embedded: Python `dict`s become insertion-ordered
association lists, Python `float` arithmetic becomes exact real arithmetic, Python
exceptions become `Except`, and each function of the source file becomes a Lean
definition of the same name (modulo naming conventions).
-/

set_option autoImplicit false

namespace AnubisElo

/-! ## Insertion-ordered dictionaries (model of Python `dict`) -/

/-- Lookup in an insertion-ordered association list: the model of `d[k]` /
`d.get(k)` on a Python dict whose keys are unique. -/
def dictGet? {K V : Type} [DecidableEq K] : List (K × V) → K → Option V
  | [], _ => none
  | (k', v) :: d, k => if k = k' then some v else dictGet? d k

/-- `d[k] = v` on a Python dict: replaces the value in place if the key exists
(keeping its position), otherwise appends the new binding at the end. -/
def dictSet {K V : Type} [DecidableEq K] : List (K × V) → K → V → List (K × V)
  | [], k, v => [(k, v)]
  | (k', v') :: d, k, v => if k = k' then (k, v) :: d else (k', v') :: dictSet d k v

/-- `k in d` on a Python dict. -/
def dictContains {K V : Type} [DecidableEq K] (d : List (K × V)) (k : K) : Bool :=
  (dictGet? d k).isSome

theorem dictGet?_set_self {K V : Type} [DecidableEq K] (d : List (K × V)) (k : K) (v : V) :
    dictGet? (dictSet d k v) k = some v := by
  induction d with
  | nil => simp [dictSet, dictGet?]
  | cons p d ih =>
    obtain ⟨k', v'⟩ := p
    by_cases h : k = k'
    · simp [dictSet, dictGet?, h]
    · simp [dictSet, dictGet?, h, ih]

theorem dictGet?_set_ne {K V : Type} [DecidableEq K] (d : List (K × V)) (k k' : K) (v : V)
    (h : k' ≠ k) : dictGet? (dictSet d k v) k' = dictGet? d k' := by
  induction d with
  | nil => simp [dictSet, dictGet?, h]
  | cons p d ih =>
    obtain ⟨k₀, v₀⟩ := p
    by_cases hk : k = k₀
    · subst hk
      simp [dictSet, dictGet?, h]
    · by_cases hk' : k' = k₀
      · simp [dictSet, dictGet?, hk, hk']
      · simp [dictSet, dictGet?, hk, hk', ih]

theorem dictContains_iff {K V : Type} [DecidableEq K] (d : List (K × V)) (k : K) :
    dictContains d k = true ↔ (dictGet? d k).isSome := by
  simp [dictContains]

/-- A member of `dictSet d k v` is a member of `d` or the new binding. -/
theorem mem_dictSet {K V : Type} [DecidableEq K] (d : List (K × V)) (k : K) (v : V) :
    ∀ q ∈ dictSet d k v, q ∈ d ∨ q = (k, v) := by
  induction d with
  | nil =>
    intro q hq
    simpa [dictSet] using hq
  | cons r d ihd =>
    obtain ⟨kr, vr⟩ := r
    intro q hq
    by_cases hr : k = kr
    · subst hr
      simp only [dictSet, if_true, List.mem_cons] at hq
      rcases hq with hq | hq
      · exact Or.inr hq
      · exact Or.inl (List.mem_cons_of_mem _ hq)
    · simp only [dictSet, if_neg hr, List.mem_cons] at hq
      rcases hq with hq | hq
      · exact Or.inl (by simp [hq])
      · rcases ihd q hq with h | h
        · exact Or.inl (List.mem_cons_of_mem _ h)
        · exact Or.inr h

/-- Keys of a dict built with `dictSet` stay unique. -/
theorem nodupKeys_dictSet {K V : Type} [DecidableEq K] (d : List (K × V)) (k : K) (v : V)
    (h : (d.map Prod.fst).Nodup) : ((dictSet d k v).map Prod.fst).Nodup := by
  induction d with
  | nil => simp [dictSet]
  | cons p d ih =>
    obtain ⟨k₀, v₀⟩ := p
    simp only [List.map_cons, List.nodup_cons] at h
    by_cases hk : k = k₀
    · subst hk
      simp only [dictSet, if_true, List.map_cons, List.nodup_cons]
      exact h
    · have h1 : k₀ ∉ (dictSet d k v).map Prod.fst := by
        intro hmem
        rcases List.mem_map.mp hmem with ⟨q, hq, hfst⟩
        rcases mem_dictSet d k v q hq with hmem' | hmem'
        · exact h.1 (hfst ▸ List.mem_map_of_mem Prod.fst hmem')
        · apply hk
          rw [hmem'] at hfst
          simpa using hfst
      simp only [dictSet, if_neg hk, List.map_cons, List.nodup_cons]
      exact ⟨h1, ih h.2⟩

/-- In a dict with unique keys, a member pair is found by lookup. -/
theorem dictGet?_eq_of_mem {K V : Type} [DecidableEq K] (d : List (K × V)) (k : K) (v : V)
    (hnd : (d.map Prod.fst).Nodup) (hmem : (k, v) ∈ d) : dictGet? d k = some v := by
  induction d with
  | nil => cases hmem
  | cons p d ih =>
    obtain ⟨k₀, v₀⟩ := p
    simp only [List.map_cons, List.nodup_cons] at hnd
    rcases List.mem_cons.mp hmem with h | h
    · rw [Prod.mk.injEq] at h
      obtain ⟨h1, h2⟩ := h
      subst h1; subst h2
      simp [dictGet?]
    · have hk : k ≠ k₀ := by
        intro he; subst he
        exact hnd.1 (List.mem_map_of_mem Prod.fst h)
      simp [dictGet?, hk, ih hnd.2 h]

/-- A lookup hit comes from a member pair. -/
theorem mem_of_dictGet?_eq {K V : Type} [DecidableEq K] (d : List (K × V)) (k : K) (v : V)
    (h : dictGet? d k = some v) : (k, v) ∈ d := by
  induction d with
  | nil => simp [dictGet?] at h
  | cons p d ih =>
    obtain ⟨k₀, v₀⟩ := p
    by_cases hk : k = k₀
    · subst hk
      rw [dictGet?, if_pos rfl] at h
      obtain rfl := Option.some.injEq .. ▸ h
      exact List.mem_cons_self _ _
    · rw [dictGet?, if_neg hk] at h
      exact List.mem_cons_of_mem _ (ih h)

/-! ## String helpers (models of the Python `str` methods used by the program,
restricted to ASCII data) -/

/-- ASCII lower-casing of one character, the model of what `str.lower` does to
each character of the ASCII strings this program compares. -/
def asciiLower (c : Char) : Char :=
  if 'A' ≤ c ∧ c ≤ 'Z' then Char.ofNat (c.toNat + 32) else c

/-- Model of `s.lower()` on ASCII strings. -/
def pyLower (s : String) : String :=
  ⟨s.data.map asciiLower⟩

/-- Model of `s.strip()` on ASCII strings: drop whitespace from both ends. -/
def pyTrim (s : String) : String :=
  ⟨((s.data.dropWhile Char.isWhitespace).reverse.dropWhile Char.isWhitespace).reverse⟩

/-- Model of `s.split(",")`: separators are not merged, empty pieces are kept,
and the empty string yields one empty piece. -/
def splitCommaAux : List Char → List Char → List String
  | [], acc => [⟨acc.reverse⟩]
  | c :: rest, acc =>
    if c = ',' then ⟨acc.reverse⟩ :: splitCommaAux rest [] else splitCommaAux rest (c :: acc)

/-- Model of `s.split(",")`. -/
def pySplitComma (s : String) : List String :=
  splitCommaAux s.data []

/-- Model of `s.isdigit()` on ASCII strings: nonempty and all characters are
decimal digits. -/
def pyIsDigit (s : String) : Bool :=
  !s.data.isEmpty && s.data.all Char.isDigit

/-- Numeric value of a string of decimal digits, most significant first: the
value `int(s)` yields on a string that passed `isdigit`. -/
def digitsVal (s : String) : ℕ :=
  s.data.foldl (fun a c => a * 10 + (c.toNat - 48)) 0

/-- Model of Python `int(s)` on ASCII decimal literals: strip whitespace, accept
an optional sign followed by at least one digit, anything else raises (`none`). -/
def pyInt (s : String) : Option ℤ :=
  match (pyTrim s).data with
  | '-' :: ds =>
    if ds ≠ [] ∧ ds.all Char.isDigit then some (-(digitsVal ⟨ds⟩ : ℤ)) else none
  | '+' :: ds =>
    if ds ≠ [] ∧ ds.all Char.isDigit then some (digitsVal ⟨ds⟩ : ℤ) else none
  | ds =>
    if ds ≠ [] ∧ ds.all Char.isDigit then some (digitsVal ⟨ds⟩ : ℤ) else none

/-- The decimal digit characters, as produced by Python `str(int)`. -/
def digitChar (n : ℕ) : Char :=
  if n = 0 then '0' else if n = 1 then '1' else if n = 2 then '2' else if n = 3 then '3'
  else if n = 4 then '4' else if n = 5 then '5' else if n = 6 then '6' else if n = 7 then '7'
  else if n = 8 then '8' else '9'

/-- Decimal representation of a natural number, most significant digit first,
computed with explicit fuel so that it reduces by evaluation. -/
def natReprAux : ℕ → ℕ → List Char
  | 0, _ => []
  | fuel + 1, n =>
    if n < 10 then [digitChar n] else natReprAux fuel (n / 10) ++ [digitChar (n % 10)]

/-- Decimal representation of a natural number (no leading zeros), the model of
Python `str(n)` for `n ≥ 0`. -/
def natRepr (n : ℕ) : List Char :=
  natReprAux (n + 1) n

/-- Model of Python `str` on an `int`. -/
def pyStr (i : ℤ) : String :=
  if i < 0 then ⟨'-' :: natRepr i.natAbs⟩ else ⟨natRepr i.toNat⟩

/-! ## Data model and row parsing (`MatchRow`, `_parse_int_list`,
`_parse_str_list`, `_read_matches`) -/

/-- The `MatchRow` dataclass. -/
structure MatchRow where
  mapstats_id : ℤ
  event_name : String
  map_name : String
  team1_name : String
  team2_name : String
  team1_rounds : ℤ
  team2_rounds : ℤ
  team1_player_ids : List ℤ
  team2_player_ids : List ℤ
  team1_player_names : List String
  team2_player_names : List String
  source_path : String
deriving DecidableEq

/-- `_parse_int_list`: split on commas, strip each part, keep only the parts
that pass `isdigit` (converted to their value), silently dropping the rest. -/
def parseIntList (s : String) : List ℤ :=
  let t := pyTrim s
  if t.data = [] then []
  else
    (pySplitComma t).foldl
      (fun out part =>
        let p := pyTrim part
        if pyIsDigit p then out ++ [(digitsVal p : ℤ)] else out)
      []

/-- `_parse_str_list`: split on commas, strip each part, keep the nonempty ones. -/
def parseStrList (s : String) : List String :=
  let t := pyTrim s
  if t.data = [] then []
  else ((pySplitComma t).map pyTrim).filter (fun p => !p.data.isEmpty)

/-- One raw CSV row: the twelve required columns, each a string. -/
structure CsvRow where
  mapstats_id : String
  event_name : String
  map_name : String
  team1_name : String
  team2_name : String
  team1_rounds : String
  team2_rounds : String
  team1_player_ids : String
  team2_player_ids : String
  team1_player_names : String
  team2_player_names : String
  source_path : String

/-- The body of the `try` block of `_read_matches`: build a `MatchRow` from a
raw row; `none` models the swallowed exception (only the three `int(...)`
conversions can raise). -/
def rowToMatch (r : CsvRow) : Option MatchRow :=
  match pyInt r.mapstats_id, pyInt r.team1_rounds, pyInt r.team2_rounds with
  | some mid, some r1, some r2 =>
    some ⟨mid, r.event_name, r.map_name, r.team1_name, r.team2_name, r1, r2,
      parseIntList r.team1_player_ids, parseIntList r.team2_player_ids,
      parseStrList r.team1_player_names, parseStrList r.team2_player_names,
      r.source_path⟩
  | _, _, _ => none

/-- The row loop of `_read_matches`: rows whose conversion raises are dropped,
the rest are kept in order. -/
def readMatches (rows : List CsvRow) : List MatchRow :=
  rows.filterMap rowToMatch

/-! ## Record validation (`_validate_teams`) -/

/-- `_validate_teams`: both id lists and both name lists have length 5, both id
lists have 5 distinct values (`len(set(ids))`), and the id sets are disjoint. -/
def validateTeams (ids1 ids2 : List ℤ) (names1 names2 : List String) : Bool :=
  (ids1.length == 5) && (ids2.length == 5) &&
  (names1.length == 5) && (names2.length == 5) &&
  (ids1.dedup.length == 5) && (ids2.dedup.length == 5) &&
  decide (∀ x ∈ ids1, x ∉ ids2)

/-! ## Identity canonicalization (`_build_canonical_name_map`,
`_make_unique_names`) -/

/-- The inner `add` helper of `_build_canonical_name_map`: strip the name,
ignore it if empty, otherwise bump `counts[pid][name]` (creating the inner
dict on first use). -/
def addName (counts : List (ℤ × List (String × ℕ))) (pid : ℤ) (name : String) :
    List (ℤ × List (String × ℕ)) :=
  let nm := pyTrim name
  if nm.data = [] then counts
  else
    let inner := (dictGet? counts pid).getD []
    dictSet counts pid (dictSet inner nm ((dictGet? inner nm).getD 0 + 1))

/-- The per-match tally of `_build_canonical_name_map`: only rows on the target
map contribute, and only when ids and names align positionally. -/
def tallyMatch (counts : List (ℤ × List (String × ℕ))) (m : MatchRow) :
    List (ℤ × List (String × ℕ)) :=
  if pyLower m.map_name ≠ "anubis" then counts
  else
    let c1 :=
      if m.team1_player_ids.length = m.team1_player_names.length then
        (m.team1_player_ids.zip m.team1_player_names).foldl
          (fun c p => addName c p.1 p.2) counts
      else counts
    if m.team2_player_ids.length = m.team2_player_names.length then
      (m.team2_player_ids.zip m.team2_player_names).foldl
        (fun c p => addName c p.1 p.2) c1
    else c1

/-- `sorted(name_counts.items(), key=lambda x: (x[1], x[0]), reverse=True)[0][0]`:
the name with the greatest `(count, name)` pair. The fold keeps the strictly
greater candidate, which is the unique maximum because names are distinct keys. -/
def bestName : List (String × ℕ) → String
  | [] => ""
  | x :: xs =>
    (xs.foldl (fun b y => if b.2 < y.2 ∨ (b.2 = y.2 ∧ b.1 < y.1) then y else b) x).1

/-- `_build_canonical_name_map`. -/
def buildCanonicalNameMap (ms : List MatchRow) : List (ℤ × String) :=
  let counts := ms.foldl tallyMatch []
  counts.foldl (fun out p => dictSet out p.1 (bestName p.2)) []

/-- `sorted(pids)` for a list of ints. -/
def sortInts (l : List ℤ) : List ℤ :=
  l.insertionSort (· ≤ ·)

/-- The `name_to_pids` grouping pass of `_make_unique_names`: ids grouped by
chosen name, names in first-appearance order, ids in dict order. -/
def buildNameToPids (d : List (ℤ × String)) : List (String × List ℤ) :=
  d.foldl (fun acc p => dictSet acc p.2 ((dictGet? acc p.2).getD [] ++ [p.1])) []

/-- `_make_unique_names`: group ids by chosen name, then rewrite every member
of each collision group (two or more ids) to `"<name> (<id>)"`, in ascending id
order. -/
def makeUniqueNames (d : List (ℤ × String)) : List (ℤ × String) :=
  (buildNameToPids d).foldl
    (fun out p =>
      if p.2.length ≤ 1 then out
      else
        (sortInts p.2).foldl
          (fun out2 pid => dictSet out2 pid (p.1 ++ " (" ++ pyStr pid ++ ")")) out)
    d

/-! ## The rating engine (`backtest` and its helpers) -/

/-- `_mean`. -/
noncomputable def pyMean (vals : List ℝ) : ℝ :=
  if vals = [] then 0 else vals.sum / vals.length

/-- `_expected_score`. -/
noncomputable def expectedScore (rA rB : ℝ) : ℝ :=
  1 / (1 + (10 : ℝ) ^ ((rB - rA) / 400))

/-- `_round_weight`; the `raise ValueError` becomes `Except.error`. -/
noncomputable def roundWeight (r1 r2 : ℤ) (mode : String) (cap : ℝ) : Except String ℝ :=
  if mode = "none" then Except.ok 1
  else
    let rd : ℤ := |r1 - r2|
    if mode = "linear" then Except.ok (min cap (1 + (rd : ℝ) / 12))
    else if mode = "sqrt" then Except.ok (min cap (1 + Real.sqrt (rd : ℝ) / Real.sqrt 12))
    else Except.error ("Unknown weight mode: " ++ mode)

/-- `_winner_score`. -/
noncomputable def winnerScore (r1 r2 : ℤ) : ℝ :=
  if r1 = r2 then 1 / 2 else if r1 > r2 then 1 else 0

/-- Per-player mutable stats: the `{"games": 0, "wins": 0, "losses": 0}` dict. -/
structure PStats where
  games : ℕ
  wins : ℕ
  losses : ℕ
deriving DecidableEq

/-- The mutable state of one `backtest` run: the `ratings` and `stats` dicts,
the caller's `pid_to_name` dict (mutated in place by the loop), and the
accumulators `n`, `correct`, `ll_sum`. -/
structure BState where
  ratings : List (ℤ × ℝ)
  stats : List (ℤ × PStats)
  pidToName : List (ℤ × String)
  n : ℕ
  correct : ℕ
  llSum : ℝ

/-- The final metrics dict, with fields `matches_used`, `accuracy`, `log_loss`. -/
structure Metrics where
  matches_used : ℝ
  accuracy : ℝ
  log_loss : ℝ

/-- The `ensure` helper of `backtest`, acting on the `(ratings, stats)` pair:
missing entries are created with the initial rating and zero stats. -/
noncomputable def ensurePid (initR : ℝ) (rs : List (ℤ × ℝ) × List (ℤ × PStats)) (pid : ℤ) :
    List (ℤ × ℝ) × List (ℤ × PStats) :=
  (if dictContains rs.1 pid then rs.1 else dictSet rs.1 pid initR,
   if dictContains rs.2 pid then rs.2 else dictSet rs.2 pid ⟨0, 0, 0⟩)

/-- The `for pid in t1_ids + t2_ids: ensure(pid)` loop. -/
noncomputable def ensureAll (initR : ℝ) (rs : List (ℤ × ℝ) × List (ℤ × PStats))
    (pids : List ℤ) : List (ℤ × ℝ) × List (ℤ × PStats) :=
  pids.foldl (ensurePid initR) rs

/-- `get_r`: read a rating with the initial rating as default. -/
noncomputable def getR (r : List (ℤ × ℝ)) (initR : ℝ) (pid : ℤ) : ℝ :=
  (dictGet? r pid).getD initR

/-- Team rating: mean of the members' current ratings. -/
noncomputable def teamRating (r : List (ℤ × ℝ)) (initR : ℝ) (pids : List ℤ) : ℝ :=
  pyMean (pids.map (getR r initR))

/-- One per-team update loop of `backtest`: each member's rating is set to its
current value plus `delta`, its games count is bumped, and wins/losses are
bumped by the precomputed increments. `stats[pid]` is read with a zero default;
the `ensure` loop has always created it, so the Python `KeyError` is
unreachable. -/
noncomputable def updateTeam (delta : ℝ) (initR : ℝ) (winInc lossInc : ℕ) (pids : List ℤ)
    (rs : List (ℤ × ℝ) × List (ℤ × PStats)) : List (ℤ × ℝ) × List (ℤ × PStats) :=
  pids.foldl
    (fun p pid =>
      let g := (dictGet? p.2 pid).getD ⟨0, 0, 0⟩
      (dictSet p.1 pid (getR p.1 initR pid + delta),
       dictSet p.2 pid ⟨g.games + 1, g.wins + winInc, g.losses + lossInc⟩))
    rs

/-- The on-the-fly name learning of `backtest`: record a stripped nonempty name
for an identifier not yet present in `pid_to_name`. -/
def learnNames (pn : List (ℤ × String)) (ids : List ℤ) (names : List String) :
    List (ℤ × String) :=
  (ids.zip names).foldl
    (fun d p =>
      if ¬ dictContains d p.1 ∧ ¬ (pyTrim p.2).data = [] then dictSet d p.1 (pyTrim p.2)
      else d)
    pn

/-- The `start_id`/`end_id` range filter: `True` means the match is skipped. -/
def skipRange (startId endId : Option ℤ) (mid : ℤ) : Bool :=
  (match startId with | some s => decide (mid < s) | none => false) ||
  (match endId with | some e => decide (e < mid) | none => false)

/-- The expected score `e1` computed for a match from the current state (team
ratings are read after `ensure`, with the initial rating as default). -/
noncomputable def matchE1 (initR : ℝ) (st : BState) (m : MatchRow) : ℝ :=
  let rs := ensureAll initR (st.ratings, st.stats) (m.team1_player_ids ++ m.team2_player_ids)
  expectedScore (teamRating rs.1 initR m.team1_player_ids)
    (teamRating rs.1 initR m.team2_player_ids)

/-- The validated part of the replay loop body, given the already computed round
weight `w`: name learning, `ensure`, the prediction bookkeeping and the paired
rating update (`delta2 = -delta1`). -/
noncomputable def happyStep (k initR w : ℝ) (st : BState) (m : MatchRow) : BState :=
  let pn1 := learnNames st.pidToName m.team1_player_ids m.team1_player_names
  let pn2 := learnNames pn1 m.team2_player_ids m.team2_player_names
  let rs := ensureAll initR (st.ratings, st.stats)
    (m.team1_player_ids ++ m.team2_player_ids)
  let e1 := expectedScore (teamRating rs.1 initR m.team1_player_ids)
    (teamRating rs.1 initR m.team2_player_ids)
  let s1 := winnerScore m.team1_rounds m.team2_rounds
  let eps : ℝ := 1 / 10 ^ (12 : ℕ)
  let p := min (1 - eps) (max eps e1)
  let llAdd := -(s1 * Real.log p + (1 - s1) * Real.log (1 - p))
  let corr : ℕ := if (1 / 2 ≤ e1 ∧ s1 = 1) ∨ (e1 < 1 / 2 ∧ s1 = 0) then 1 else 0
  let delta1 := k * w * (s1 - e1)
  let u1 := updateTeam delta1 initR (if s1 = 1 then 1 else 0) (if s1 = 0 then 1 else 0)
    m.team1_player_ids (rs.1, rs.2)
  let u2 := updateTeam (-delta1) initR (if s1 = 0 then 1 else 0) (if s1 = 1 then 1 else 0)
    m.team2_player_ids u1
  ⟨u2.1, u2.2, pn2, st.n + 1, st.correct + corr, st.llSum + llAdd⟩

/-- The body of the replay loop of `backtest` for one match: the three `continue`
guards, validation, then the validated update; an unknown weight mode raises,
which propagates as `Except.error`. -/
noncomputable def stepE (k initR : ℝ) (mode : String) (cap : ℝ) (startId endId : Option ℤ)
    (st : BState) (m : MatchRow) : Except String BState :=
  if skipRange startId endId m.mapstats_id then Except.ok st
  else if pyLower m.map_name ≠ "anubis" then Except.ok st
  else if ¬ validateTeams m.team1_player_ids m.team2_player_ids
      m.team1_player_names m.team2_player_names then Except.ok st
  else
    match roundWeight m.team1_rounds m.team2_rounds mode cap with
    | Except.error msg => Except.error msg
    | Except.ok w => Except.ok (happyStep k initR w st m)

/-- `sorted(matches, key=lambda m: m.mapstats_id)`: Python's stable sort by
match id, modeled by (stable) insertion sort. -/
def sortMatches (ms : List MatchRow) : List MatchRow :=
  ms.insertionSort (fun a b => a.mapstats_id ≤ b.mapstats_id)

/-- `backtest`: sort, replay every match through `stepE`, and produce the
ratings, stats and metrics. -/
noncomputable def backtestE (k initR : ℝ) (mode : String) (cap : ℝ)
    (startId endId : Option ℤ) (ms : List MatchRow) (pidToName : List (ℤ × String)) :
    Except String (List (ℤ × ℝ) × List (ℤ × PStats) × Metrics) := do
  let st ← (sortMatches ms).foldlM (stepE k initR mode cap startId endId)
    ⟨[], [], pidToName, 0, 0, 0⟩
  pure (st.ratings, st.stats,
    ⟨(st.n : ℝ),
     if st.n = 0 then 0 else (st.correct : ℝ) / (st.n : ℝ),
     if st.n = 0 then 0 else st.llSum / (st.n : ℝ)⟩)

/-- Projection of a step result, used to state per-match theorems: the new state
on success, the old state if the step raised. -/
noncomputable def okD (e : Except String BState) (d : BState) : BState :=
  match e with
  | Except.ok s => s
  | Except.error _ => d

/-! ## Lemmas about the engine's folds -/

theorem ensureAll_fst_get? (initR : ℝ) (rs : List (ℤ × ℝ) × List (ℤ × PStats))
    (pids : List ℤ) (pid : ℤ) :
    dictGet? (ensureAll initR rs pids).1 pid =
      match dictGet? rs.1 pid with
      | some v => some v
      | none => if pid ∈ pids then some initR else none := by
  induction pids generalizing rs with
  | nil =>
    cases h : dictGet? rs.1 pid <;> simp [ensureAll, h]
  | cons q pids ih =>
    have hstep : ensureAll initR rs (q :: pids) = ensureAll initR (ensurePid initR rs q) pids := by
      simp [ensureAll]
    rw [hstep, ih]
    by_cases hq : pid = q
    · subst hq
      cases h : dictGet? rs.1 pid with
      | some v =>
        have : dictGet? (ensurePid initR rs pid).1 pid = some v := by
          simp [ensurePid, dictContains, h]
        simp [this]
      | none =>
        have : dictGet? (ensurePid initR rs pid).1 pid = some initR := by
          simp [ensurePid, dictContains, h, dictGet?_set_self]
        simp [this]
    · have : dictGet? (ensurePid initR rs q).1 pid = dictGet? rs.1 pid := by
        by_cases hc : dictContains rs.1 q
        · simp [ensurePid, hc]
        · simp [ensurePid, hc, dictGet?_set_ne _ _ _ _ hq]
      rw [this]
      cases h : dictGet? rs.1 pid <;> simp [h, hq]

theorem ensureAll_snd_get? (initR : ℝ) (rs : List (ℤ × ℝ) × List (ℤ × PStats))
    (pids : List ℤ) (pid : ℤ) :
    dictGet? (ensureAll initR rs pids).2 pid =
      match dictGet? rs.2 pid with
      | some v => some v
      | none => if pid ∈ pids then some ⟨0, 0, 0⟩ else none := by
  induction pids generalizing rs with
  | nil =>
    cases h : dictGet? rs.2 pid <;> simp [ensureAll, h]
  | cons q pids ih =>
    have hstep : ensureAll initR rs (q :: pids) = ensureAll initR (ensurePid initR rs q) pids := by
      simp [ensureAll]
    rw [hstep, ih]
    by_cases hq : pid = q
    · subst hq
      cases h : dictGet? rs.2 pid with
      | some v =>
        have : dictGet? (ensurePid initR rs pid).2 pid = some v := by
          simp [ensurePid, dictContains, h]
        simp [this]
      | none =>
        have : dictGet? (ensurePid initR rs pid).2 pid = some ⟨0, 0, 0⟩ := by
          simp [ensurePid, dictContains, h, dictGet?_set_self]
        simp [this]
    · have : dictGet? (ensurePid initR rs q).2 pid = dictGet? rs.2 pid := by
        by_cases hc : dictContains rs.2 q
        · simp [ensurePid, hc]
        · simp [ensurePid, hc, dictGet?_set_ne _ _ _ _ hq]
      rw [this]
      cases h : dictGet? rs.2 pid <;> simp [h, hq]

/-- `ensure` never changes the value `get_r` reads. -/
theorem getR_ensureAll (initR : ℝ) (rs : List (ℤ × ℝ) × List (ℤ × PStats))
    (pids : List ℤ) (pid : ℤ) :
    getR (ensureAll initR rs pids).1 initR pid = getR rs.1 initR pid := by
  rw [getR, getR, ensureAll_fst_get?]
  cases h : dictGet? rs.1 pid with
  | some v => simp
  | none =>
    by_cases hm : pid ∈ pids <;> simp [hm]

theorem updateTeam_get?_notMem (delta initR : ℝ) (winInc lossInc : ℕ) (pids : List ℤ)
    (rs : List (ℤ × ℝ) × List (ℤ × PStats)) (pid : ℤ) (hpid : pid ∉ pids) :
    dictGet? (updateTeam delta initR winInc lossInc pids rs).1 pid = dictGet? rs.1 pid ∧
    dictGet? (updateTeam delta initR winInc lossInc pids rs).2 pid = dictGet? rs.2 pid := by
  induction pids generalizing rs with
  | nil => simp [updateTeam]
  | cons q pids ih =>
    have hne : pid ≠ q := fun h => hpid (h ▸ List.mem_cons_self q pids)
    have hpid' : pid ∉ pids := fun h => hpid (List.mem_cons_of_mem q h)
    have hstep : updateTeam delta initR winInc lossInc (q :: pids) rs =
        updateTeam delta initR winInc lossInc pids
          (dictSet rs.1 q (getR rs.1 initR q + delta),
           dictSet rs.2 q
             (let g := (dictGet? rs.2 q).getD ⟨0, 0, 0⟩
              ⟨g.games + 1, g.wins + winInc, g.losses + lossInc⟩)) := by
      simp [updateTeam]
    rw [hstep]
    obtain ⟨h1, h2⟩ := ih _ hpid'
    rw [h1, h2, dictGet?_set_ne _ _ _ _ hne, dictGet?_set_ne _ _ _ _ hne]
    exact ⟨rfl, rfl⟩

theorem updateTeam_get?_mem (delta initR : ℝ) (winInc lossInc : ℕ) (pids : List ℤ)
    (rs : List (ℤ × ℝ) × List (ℤ × PStats)) (pid : ℤ) (hnd : pids.Nodup) (hpid : pid ∈ pids) :
    dictGet? (updateTeam delta initR winInc lossInc pids rs).1 pid =
      some (getR rs.1 initR pid + delta) ∧
    dictGet? (updateTeam delta initR winInc lossInc pids rs).2 pid =
      some (let g := (dictGet? rs.2 pid).getD ⟨0, 0, 0⟩
            ⟨g.games + 1, g.wins + winInc, g.losses + lossInc⟩) := by
  induction pids generalizing rs with
  | nil => cases hpid
  | cons q pids ih =>
    have hstep : updateTeam delta initR winInc lossInc (q :: pids) rs =
        updateTeam delta initR winInc lossInc pids
          (dictSet rs.1 q (getR rs.1 initR q + delta),
           dictSet rs.2 q
             (let g := (dictGet? rs.2 q).getD ⟨0, 0, 0⟩
              ⟨g.games + 1, g.wins + winInc, g.losses + lossInc⟩)) := by
      simp [updateTeam]
    rw [hstep]
    rw [List.nodup_cons] at hnd
    rcases List.mem_cons.mp hpid with hq | hq
    · subst hq
      obtain ⟨h1, h2⟩ := updateTeam_get?_notMem delta initR winInc lossInc pids _ pid hnd.1
      rw [h1, h2, dictGet?_set_self, dictGet?_set_self]
      exact ⟨rfl, rfl⟩
    · have hne : pid ≠ q := fun h => hnd.1 (h ▸ hq)
      obtain ⟨h1, h2⟩ := ih _ hnd.2 hq
      rw [h1, h2]
      rw [getR, dictGet?_set_ne _ _ _ _ hne, dictGet?_set_ne _ _ _ _ hne]
      exact ⟨rfl, rfl⟩

/-- Unpacking a successful `_validate_teams` check. -/
theorem validateTeams_true_iff (ids1 ids2 : List ℤ) (names1 names2 : List String)
    (h : validateTeams ids1 ids2 names1 names2 = true) :
    ids1.length = 5 ∧ ids2.length = 5 ∧ names1.length = 5 ∧ names2.length = 5 ∧
    ids1.Nodup ∧ ids2.Nodup ∧ ∀ x ∈ ids1, x ∉ ids2 := by
  simp only [validateTeams, Bool.and_eq_true, beq_iff_eq, decide_eq_true_eq] at h
  obtain ⟨⟨⟨⟨⟨⟨h1, h2⟩, h3⟩, h4⟩, h5⟩, h6⟩, h7⟩ := h
  refine ⟨h1, h2, h3, h4, ?_, ?_, h7⟩
  · exact List.dedup_eq_self.mp
      (List.Sublist.eq_of_length (List.dedup_sublist ids1) (h5.trans h1.symm))
  · exact List.dedup_eq_self.mp
      (List.Sublist.eq_of_length (List.dedup_sublist ids2) (h6.trans h2.symm))

/-- A validated, in-range, on-map match steps to the validated update. -/
theorem stepE_eq_happy (k initR : ℝ) (mode : String) (cap : ℝ) (startId endId : Option ℤ)
    (st : BState) (m : MatchRow) (w : ℝ)
    (hskip : skipRange startId endId m.mapstats_id = false)
    (hmap : pyLower m.map_name = "anubis")
    (hval : validateTeams m.team1_player_ids m.team2_player_ids
      m.team1_player_names m.team2_player_names = true)
    (hw : roundWeight m.team1_rounds m.team2_rounds mode cap = Except.ok w) :
    stepE k initR mode cap startId endId st m = Except.ok (happyStep k initR w st m) := by
  rw [stepE, hskip, hmap, hval, hw]
  simp

/-- A match that fails one of the three `continue` guards or validation leaves
the state untouched. -/
theorem stepE_skip (k initR : ℝ) (mode : String) (cap : ℝ) (startId endId : Option ℤ)
    (st : BState) (m : MatchRow)
    (h : skipRange startId endId m.mapstats_id = true ∨ pyLower m.map_name ≠ "anubis" ∨
      validateTeams m.team1_player_ids m.team2_player_ids
        m.team1_player_names m.team2_player_names = false) :
    stepE k initR mode cap startId endId st m = Except.ok st := by
  rcases h with h | h | h
  · rw [stepE, h]
    simp
  · rw [stepE]
    by_cases hs : skipRange startId endId m.mapstats_id
    · simp [hs]
    · simp [hs, h]
  · rw [stepE]
    by_cases hs : skipRange startId endId m.mapstats_id
    · simp [hs]
    · by_cases hm : pyLower m.map_name = "anubis"
      · simp [hs, hm, h]
      · simp [hs, hm]

/-- The two per-team update loops in sequence: each member of the first team
gains `delta`, each member of the second gains `delta2`, read off the ratings
before either loop ran. -/
theorem twoTeamUpdate_get? (delta delta2 initR : ℝ) (w1 l1 w2 l2 : ℕ) (t1 t2 : List ℤ)
    (rs : List (ℤ × ℝ) × List (ℤ × PStats)) (hnd1 : t1.Nodup) (hnd2 : t2.Nodup)
    (hdisj : ∀ x ∈ t1, x ∉ t2) :
    (∀ pid ∈ t1,
      dictGet? (updateTeam delta2 initR w2 l2 t2 (updateTeam delta initR w1 l1 t1 rs)).1 pid =
        some (getR rs.1 initR pid + delta)) ∧
    (∀ pid ∈ t2,
      dictGet? (updateTeam delta2 initR w2 l2 t2 (updateTeam delta initR w1 l1 t1 rs)).1 pid =
        some (getR rs.1 initR pid + delta2)) := by
  constructor
  · intro pid hpid
    obtain ⟨h1, _⟩ := updateTeam_get?_notMem delta2 initR w2 l2 t2
      (updateTeam delta initR w1 l1 t1 rs) pid (hdisj pid hpid)
    rw [h1]
    exact (updateTeam_get?_mem delta initR w1 l1 t1 rs pid hnd1 hpid).1
  · intro pid hpid
    have hnot1 : pid ∉ t1 := fun h => hdisj pid h hpid
    obtain ⟨h1, _⟩ := updateTeam_get?_mem delta2 initR w2 l2 t2
      (updateTeam delta initR w1 l1 t1 rs) pid hnd2 hpid
    rw [h1]
    have hx : getR (updateTeam delta initR w1 l1 t1 rs).1 initR pid = getR rs.1 initR pid := by
      rw [getR, (updateTeam_get?_notMem delta initR w1 l1 t1 rs pid hnot1).1, getR]
    rw [hx]

/-! ## Claim C1: zero-sum paired rating update -/

/-- C1. For every match processed by the replay (in range, on the target map,
validated, known weight mode), every member of team A gains exactly
`k * w * (S_A - E_A)` on top of its current (default-initialized) rating, every
member of team B gains exactly the negation of that value, and the paired
deltas sum to zero exactly. -/
theorem zero_sum_paired_update (k initR : ℝ) (mode : String) (cap : ℝ)
    (startId endId : Option ℤ) (st : BState) (m : MatchRow) (w : ℝ)
    (hskip : skipRange startId endId m.mapstats_id = false)
    (hmap : pyLower m.map_name = "anubis")
    (hval : validateTeams m.team1_player_ids m.team2_player_ids
      m.team1_player_names m.team2_player_names = true)
    (hw : roundWeight m.team1_rounds m.team2_rounds mode cap = Except.ok w) :
    (∀ pid ∈ m.team1_player_ids,
      dictGet? (okD (stepE k initR mode cap startId endId st m) st).ratings pid =
        some (getR st.ratings initR pid +
          k * w * (winnerScore m.team1_rounds m.team2_rounds - matchE1 initR st m))) ∧
    (∀ pid ∈ m.team2_player_ids,
      dictGet? (okD (stepE k initR mode cap startId endId st m) st).ratings pid =
        some (getR st.ratings initR pid +
          -(k * w * (winnerScore m.team1_rounds m.team2_rounds - matchE1 initR st m)))) ∧
    k * w * (winnerScore m.team1_rounds m.team2_rounds - matchE1 initR st m) +
      -(k * w * (winnerScore m.team1_rounds m.team2_rounds - matchE1 initR st m)) = 0 := by
  obtain ⟨hl1, hl2, hl3, hl4, hnd1, hnd2, hdisj⟩ := validateTeams_true_iff _ _ _ _ hval
  rw [stepE_eq_happy k initR mode cap startId endId st m w hskip hmap hval hw]
  have hpair := twoTeamUpdate_get?
    (k * w * (winnerScore m.team1_rounds m.team2_rounds - matchE1 initR st m))
    (-(k * w * (winnerScore m.team1_rounds m.team2_rounds - matchE1 initR st m)))
    initR
    (if winnerScore m.team1_rounds m.team2_rounds = 1 then 1 else 0)
    (if winnerScore m.team1_rounds m.team2_rounds = 0 then 1 else 0)
    (if winnerScore m.team1_rounds m.team2_rounds = 0 then 1 else 0)
    (if winnerScore m.team1_rounds m.team2_rounds = 1 then 1 else 0)
    m.team1_player_ids m.team2_player_ids
    ((ensureAll initR (st.ratings, st.stats) (m.team1_player_ids ++ m.team2_player_ids)).1,
     (ensureAll initR (st.ratings, st.stats) (m.team1_player_ids ++ m.team2_player_ids)).2)
    hnd1 hnd2 hdisj
  refine ⟨?_, ?_, by ring⟩
  · intro pid hpid
    have key := hpair.1 pid hpid
    rw [show getR
        ((ensureAll initR (st.ratings, st.stats) (m.team1_player_ids ++ m.team2_player_ids)).1,
         (ensureAll initR (st.ratings, st.stats) (m.team1_player_ids ++ m.team2_player_ids)).2).1
        initR pid = getR st.ratings initR pid from
      getR_ensureAll initR (st.ratings, st.stats)
        (m.team1_player_ids ++ m.team2_player_ids) pid] at key
    exact key
  · intro pid hpid
    have key := hpair.2 pid hpid
    rw [show getR
        ((ensureAll initR (st.ratings, st.stats) (m.team1_player_ids ++ m.team2_player_ids)).1,
         (ensureAll initR (st.ratings, st.stats) (m.team1_player_ids ++ m.team2_player_ids)).2).1
        initR pid = getR st.ratings initR pid from
      getR_ensureAll initR (st.ratings, st.stats)
        (m.team1_player_ids ++ m.team2_player_ids) pid] at key
    exact key

theorem okD_ok (s d : BState) : okD (Except.ok s) d = s := rfl

/-- The `correct` counter after one validated step: bumped exactly when the
prediction matched the outcome. -/
theorem happyStep_correct (k initR w : ℝ) (st : BState) (m : MatchRow) :
    (happyStep k initR w st m).correct =
      st.correct +
        if (1 / 2 ≤ matchE1 initR st m ∧ winnerScore m.team1_rounds m.team2_rounds = 1) ∨
            (matchE1 initR st m < 1 / 2 ∧ winnerScore m.team1_rounds m.team2_rounds = 0)
        then 1 else 0 := rfl

theorem happyStep_n (k initR w : ℝ) (st : BState) (m : MatchRow) :
    (happyStep k initR w st m).n = st.n + 1 := rfl

/-! ## Claim C3: the prediction-correctness rule -/

/-- C3. A processed match bumps the correct-prediction counter iff
(`E_A ≥ 1/2` and `S_A = 1`) or (`E_A < 1/2` and `S_A = 0`); a drawn match
(`S_A = 1/2`) never bumps it, even when `E_A = 1/2`. -/
theorem correct_counting_rule (k initR : ℝ) (mode : String) (cap : ℝ)
    (startId endId : Option ℤ) (st : BState) (m : MatchRow) (w : ℝ)
    (hskip : skipRange startId endId m.mapstats_id = false)
    (hmap : pyLower m.map_name = "anubis")
    (hval : validateTeams m.team1_player_ids m.team2_player_ids
      m.team1_player_names m.team2_player_names = true)
    (hw : roundWeight m.team1_rounds m.team2_rounds mode cap = Except.ok w) :
    ((okD (stepE k initR mode cap startId endId st m) st).correct = st.correct + 1 ↔
      ((1 / 2 ≤ matchE1 initR st m ∧ winnerScore m.team1_rounds m.team2_rounds = 1) ∨
        (matchE1 initR st m < 1 / 2 ∧ winnerScore m.team1_rounds m.team2_rounds = 0))) ∧
    (winnerScore m.team1_rounds m.team2_rounds = 1 / 2 →
      (okD (stepE k initR mode cap startId endId st m) st).correct = st.correct) := by
  rw [stepE_eq_happy k initR mode cap startId endId st m w hskip hmap hval hw, okD_ok,
    happyStep_correct]
  constructor
  · by_cases hcond : (1 / 2 ≤ matchE1 initR st m ∧
        winnerScore m.team1_rounds m.team2_rounds = 1) ∨
      (matchE1 initR st m < 1 / 2 ∧ winnerScore m.team1_rounds m.team2_rounds = 0)
    · rw [if_pos hcond]
      exact iff_of_true rfl hcond
    · rw [if_neg hcond]
      exact iff_of_false (by omega) hcond
  · intro hdraw
    have hcond : ¬ ((1 / 2 ≤ matchE1 initR st m ∧
        winnerScore m.team1_rounds m.team2_rounds = 1) ∨
      (matchE1 initR st m < 1 / 2 ∧ winnerScore m.team1_rounds m.team2_rounds = 0)) := by
      rintro (⟨_, h1⟩ | ⟨_, h0⟩)
      · rw [hdraw] at h1
        norm_num at h1
      · rw [hdraw] at h0
        norm_num at h0
    rw [if_neg hcond, Nat.add_zero]

/-! ## Claim C4: draws and an exact 0.5 prediction -/

/-- C4 (amended). A processed drawn match is never counted as a correct
prediction, whatever `E_A` is, in particular when `E_A = 1/2`. -/
theorem draw_not_counted_correct (k initR : ℝ) (mode : String) (cap : ℝ)
    (startId endId : Option ℤ) (st : BState) (m : MatchRow) (w : ℝ)
    (hskip : skipRange startId endId m.mapstats_id = false)
    (hmap : pyLower m.map_name = "anubis")
    (hval : validateTeams m.team1_player_ids m.team2_player_ids
      m.team1_player_names m.team2_player_names = true)
    (hw : roundWeight m.team1_rounds m.team2_rounds mode cap = Except.ok w)
    (hdraw : winnerScore m.team1_rounds m.team2_rounds = 1 / 2) :
    (okD (stepE k initR mode cap startId endId st m) st).correct = st.correct := by
  rw [stepE_eq_happy k initR mode cap startId endId st m w hskip hmap hval hw, okD_ok,
    happyStep_correct]
  have hcond : ¬ ((1 / 2 ≤ matchE1 initR st m ∧
      winnerScore m.team1_rounds m.team2_rounds = 1) ∨
    (matchE1 initR st m < 1 / 2 ∧ winnerScore m.team1_rounds m.team2_rounds = 0)) := by
    rintro (⟨_, h1⟩ | ⟨_, h0⟩)
    · rw [hdraw] at h1
      norm_num at h1
    · rw [hdraw] at h0
      norm_num at h0
  rw [if_neg hcond, Nat.add_zero]

/-! ## Claim C8: invalid records are skipped with no effect -/

/-- C8. A record that fails team validation is skipped without raising: the
step returns the state unchanged (same ratings, stats, name map, and match
counter). -/
theorem invalid_record_skipped (k initR : ℝ) (mode : String) (cap : ℝ)
    (startId endId : Option ℤ) (st : BState) (m : MatchRow)
    (hval : validateTeams m.team1_player_ids m.team2_player_ids
      m.team1_player_names m.team2_player_names = false) :
    stepE k initR mode cap startId endId st m = Except.ok st :=
  stepE_skip k initR mode cap startId endId st m (Or.inr (Or.inr hval))

/-! ## Concrete fixtures used by witnesses and counterexamples -/

/-- A fresh run state: empty dicts alongside zeroed accumulators. -/
def emptyState : BState := ⟨[], [], [], 0, 0, 0⟩

/-- A valid Anubis record that team 1 wins 16-4. -/
def winRow : MatchRow :=
  ⟨1, "ev", "Anubis", "T1", "T2", 16, 4, [1, 2, 3, 4, 5], [6, 7, 8, 9, 10],
    ["a", "b", "c", "d", "e"], ["f", "g", "h", "i", "j"], "p"⟩

/-- A valid Anubis record drawn 10-10. -/
def drawRow : MatchRow :=
  ⟨1, "ev", "Anubis", "T1", "T2", 10, 10, [1, 2, 3, 4, 5], [6, 7, 8, 9, 10],
    ["a", "b", "c", "d", "e"], ["f", "g", "h", "i", "j"], "p"⟩

/-- A record with only four ids on one side (fails validation). -/
def shortRow : MatchRow :=
  ⟨2, "ev", "Anubis", "T1", "T2", 16, 4, [1, 2, 3, 4], [6, 7, 8, 9, 10],
    ["a", "b", "c", "d"], ["f", "g", "h", "i", "j"], "p"⟩

theorem zero_sum_paired_update_witness :
    (∀ pid ∈ winRow.team1_player_ids,
      dictGet? (okD (stepE 24 1500 "none" 2 none none emptyState winRow) emptyState).ratings
          pid =
        some (getR emptyState.ratings 1500 pid +
          24 * 1 * (winnerScore winRow.team1_rounds winRow.team2_rounds -
            matchE1 1500 emptyState winRow))) ∧
    (∀ pid ∈ winRow.team2_player_ids,
      dictGet? (okD (stepE 24 1500 "none" 2 none none emptyState winRow) emptyState).ratings
          pid =
        some (getR emptyState.ratings 1500 pid +
          -(24 * 1 * (winnerScore winRow.team1_rounds winRow.team2_rounds -
            matchE1 1500 emptyState winRow)))) ∧
    24 * 1 * (winnerScore winRow.team1_rounds winRow.team2_rounds -
        matchE1 1500 emptyState winRow) +
      -(24 * 1 * (winnerScore winRow.team1_rounds winRow.team2_rounds -
        matchE1 1500 emptyState winRow)) = 0 :=
  zero_sum_paired_update 24 1500 "none" 2 none none emptyState winRow 1 rfl rfl (by decide) rfl

theorem correct_counting_rule_witness :
    ((okD (stepE 24 1500 "none" 2 none none emptyState winRow) emptyState).correct =
        emptyState.correct + 1 ↔
      ((1 / 2 ≤ matchE1 1500 emptyState winRow ∧
          winnerScore winRow.team1_rounds winRow.team2_rounds = 1) ∨
        (matchE1 1500 emptyState winRow < 1 / 2 ∧
          winnerScore winRow.team1_rounds winRow.team2_rounds = 0))) ∧
    (winnerScore winRow.team1_rounds winRow.team2_rounds = 1 / 2 →
      (okD (stepE 24 1500 "none" 2 none none emptyState winRow) emptyState).correct =
        emptyState.correct) :=
  correct_counting_rule 24 1500 "none" 2 none none emptyState winRow 1 rfl rfl (by decide) rfl

theorem draw_not_counted_correct_witness :
    winnerScore drawRow.team1_rounds drawRow.team2_rounds = 1 / 2 ∧
    (okD (stepE 24 1500 "none" 2 none none emptyState drawRow) emptyState).correct =
      emptyState.correct :=
  ⟨by norm_num [drawRow, winnerScore],
   draw_not_counted_correct 24 1500 "none" 2 none none emptyState drawRow 1 rfl rfl
     (by decide) rfl (by norm_num [drawRow, winnerScore])⟩

theorem invalid_record_skipped_witness :
    validateTeams shortRow.team1_player_ids shortRow.team2_player_ids
      shortRow.team1_player_names shortRow.team2_player_names = false ∧
    stepE 24 1500 "linear" 2 none none emptyState shortRow = Except.ok emptyState :=
  ⟨by decide,
   invalid_record_skipped 24 1500 "linear" 2 none none emptyState shortRow (by decide)⟩

/-- C4, as stated, is false: in the replay of this single drawn match the model
predicts exactly `E_A = 1/2` and the outcome is an exact draw (`S_A = 1/2`),
yet the match is not counted as a correct prediction (`accuracy = 0` with
`matches_used = 1`). -/
theorem draw_counted_correct_counterexample :
    winnerScore drawRow.team1_rounds drawRow.team2_rounds = 1 / 2 ∧
    matchE1 1500 emptyState drawRow = 1 / 2 ∧
    (backtestE 24 1500 "none" 2 none none [drawRow] []).map
      (fun r => (r.2.2.matches_used, r.2.2.accuracy)) = Except.ok (1, 0) := by
  have hdraw : winnerScore drawRow.team1_rounds drawRow.team2_rounds = 1 / 2 := by
    norm_num [drawRow, winnerScore]
  have hstep : stepE 24 1500 "none" 2 none none emptyState drawRow =
      Except.ok (happyStep 24 1500 1 emptyState drawRow) :=
    stepE_eq_happy 24 1500 "none" 2 none none emptyState drawRow 1 rfl rfl (by decide) rfl
  have hcorr : (happyStep 24 1500 1 emptyState drawRow).correct = 0 := by
    rw [happyStep_correct]
    have hc : ¬ ((1 / 2 ≤ matchE1 1500 emptyState drawRow ∧
        winnerScore drawRow.team1_rounds drawRow.team2_rounds = 1) ∨
      (matchE1 1500 emptyState drawRow < 1 / 2 ∧
        winnerScore drawRow.team1_rounds drawRow.team2_rounds = 0)) := by
      rintro (⟨_, h⟩ | ⟨_, h⟩) <;> rw [hdraw] at h <;> norm_num at h
    rw [if_neg hc]
    rfl
  have hfold : List.foldlM (stepE 24 1500 "none" 2 none none)
      (⟨[], [], [], 0, 0, 0⟩ : BState) (sortMatches [drawRow]) =
      Except.ok (happyStep 24 1500 1 emptyState drawRow) := by
    rw [show sortMatches [drawRow] = [drawRow] from rfl]
    simp only [List.foldlM]
    rw [show stepE 24 1500 "none" 2 none none ⟨[], [], [], 0, 0, 0⟩ drawRow =
      Except.ok (happyStep 24 1500 1 emptyState drawRow) from hstep]
    rfl
  refine ⟨hdraw, ?_, ?_⟩
  · simp [matchE1, emptyState, drawRow, ensureAll, ensurePid, dictContains, dictGet?, dictSet,
      teamRating, getR, pyMean, expectedScore, List.foldl]
    norm_num
  · rw [backtestE, hfold]
    have hn : (happyStep 24 1500 1 emptyState drawRow).n = 1 := happyStep_n 24 1500 1 _ _
    show Except.ok
        (((happyStep 24 1500 1 emptyState drawRow).n : ℝ),
         if (happyStep 24 1500 1 emptyState drawRow).n = 0 then (0 : ℝ)
         else ((happyStep 24 1500 1 emptyState drawRow).correct : ℝ) /
           ((happyStep 24 1500 1 emptyState drawRow).n : ℝ)) =
      Except.ok ((1 : ℝ), (0 : ℝ))
    rw [hn, hcorr]
    norm_num

/-! ## Claim C6: round-margin weight bounds -/

/-- C6 (amended). For a weight cap of at least 1, the round-margin weight lies
in `[1, cap]` under `linear` and `sqrt`, and is exactly 1 under `none`. -/
theorem round_weight_bounds (r1 r2 : ℤ) (cap : ℝ) (mode : String) (w : ℝ)
    (hcap : 1 ≤ cap) :
    ((mode = "linear" ∨ mode = "sqrt") →
      roundWeight r1 r2 mode cap = Except.ok w → 1 ≤ w ∧ w ≤ cap) ∧
    roundWeight r1 r2 "none" cap = Except.ok 1 := by
  have habs : (0 : ℝ) ≤ ((|r1 - r2| : ℤ) : ℝ) := by
    exact_mod_cast abs_nonneg (r1 - r2)
  constructor
  · rintro (hm | hm) hw <;> subst hm
    · rw [show roundWeight r1 r2 "linear" cap =
          Except.ok (min cap (1 + ((|r1 - r2| : ℤ) : ℝ) / 12)) from by
        simp [roundWeight]] at hw
      obtain rfl : min cap (1 + ((|r1 - r2| : ℤ) : ℝ) / 12) = w := by
        injection hw
      constructor
      · apply le_min hcap
        nlinarith
      · exact min_le_left _ _
    · rw [show roundWeight r1 r2 "sqrt" cap =
          Except.ok (min cap (1 + Real.sqrt ((|r1 - r2| : ℤ) : ℝ) / Real.sqrt 12)) from by
        simp [roundWeight]] at hw
      obtain rfl : min cap (1 + Real.sqrt ((|r1 - r2| : ℤ) : ℝ) / Real.sqrt 12) = w := by
        injection hw
      constructor
      · apply le_min hcap
        have h1 : 0 ≤ Real.sqrt ((|r1 - r2| : ℤ) : ℝ) := Real.sqrt_nonneg _
        have h2 : 0 ≤ Real.sqrt 12 := Real.sqrt_nonneg _
        have := div_nonneg h1 h2
        linarith
      · exact min_le_left _ _
  · simp [roundWeight]

/-- C6, as stated (for every configured `weight_cap`), is false: with
`weight_cap = 1/2` the `linear` weight of a drawn 10-10 match is `1/2 < 1`. -/
theorem round_weight_bounds_counterexample :
    roundWeight 10 10 "linear" (1 / 2) = Except.ok (1 / 2) ∧ ¬ ((1 : ℝ) ≤ 1 / 2) := by
  constructor
  · rw [show roundWeight 10 10 "linear" (1 / 2) =
        Except.ok (min (1 / 2) (1 + ((|(10 : ℤ) - 10| : ℤ) : ℝ) / 12)) from by
      simp [roundWeight]]
    norm_num
  · norm_num

/-- C6 amended-claim witness at margin 12, `cap = 2`, mode `linear`. -/
theorem round_weight_bounds_witness :
    (1 : ℝ) ≤ 2 ∧
    ((("linear" : String) = "linear" ∨ ("linear" : String) = "sqrt") →
      roundWeight 16 4 "linear" 2 = Except.ok 2 → (1 : ℝ) ≤ 2 ∧ (2 : ℝ) ≤ 2) ∧
    roundWeight 16 4 "none" 2 = Except.ok 1 :=
  ⟨by norm_num, (round_weight_bounds 16 4 2 "linear" 2 (by norm_num)).1,
   (round_weight_bounds 16 4 2 "linear" 2 (by norm_num)).2⟩

/-! ## Claim C7: unknown weight mode is a fatal error -/

theorem roundWeight_error_of_unknown (r1 r2 : ℤ) (mode : String) (cap : ℝ)
    (h1 : mode ≠ "none") (h2 : mode ≠ "linear") (h3 : mode ≠ "sqrt") :
    roundWeight r1 r2 mode cap = Except.error ("Unknown weight mode: " ++ mode) := by
  simp [roundWeight, h1, h2, h3]

theorem stepE_error_of_unknown_mode (k initR : ℝ) (mode : String) (cap : ℝ)
    (startId endId : Option ℤ) (st : BState) (m : MatchRow)
    (h1 : mode ≠ "none") (h2 : mode ≠ "linear") (h3 : mode ≠ "sqrt")
    (hskip : skipRange startId endId m.mapstats_id = false)
    (hmap : pyLower m.map_name = "anubis")
    (hval : validateTeams m.team1_player_ids m.team2_player_ids
      m.team1_player_names m.team2_player_names = true) :
    stepE k initR mode cap startId endId st m =
      Except.error ("Unknown weight mode: " ++ mode) := by
  rw [stepE, hskip, hmap, hval,
    roundWeight_error_of_unknown m.team1_rounds m.team2_rounds mode cap h1 h2 h3]
  simp

/-- With an unknown mode, the replay fold fails as soon as the list contains an
in-range, on-map, validated match. -/
theorem foldlM_error_of_unknown_mode (k initR : ℝ) (mode : String) (cap : ℝ)
    (startId endId : Option ℤ)
    (h1 : mode ≠ "none") (h2 : mode ≠ "linear") (h3 : mode ≠ "sqrt") :
    ∀ (ms : List MatchRow) (st : BState),
      (∃ m ∈ ms, skipRange startId endId m.mapstats_id = false ∧
        pyLower m.map_name = "anubis" ∧
        validateTeams m.team1_player_ids m.team2_player_ids
          m.team1_player_names m.team2_player_names = true) →
      List.foldlM (stepE k initR mode cap startId endId) st ms =
        Except.error ("Unknown weight mode: " ++ mode) := by
  intro ms
  induction ms with
  | nil =>
    rintro st ⟨m, hm, _⟩
    cases hm
  | cons a ms ih =>
    rintro st ⟨m, hm, htrig⟩
    by_cases ha : skipRange startId endId a.mapstats_id = false ∧
        pyLower a.map_name = "anubis" ∧
        validateTeams a.team1_player_ids a.team2_player_ids
          a.team1_player_names a.team2_player_names = true
    · rw [List.foldlM_cons,
        stepE_error_of_unknown_mode k initR mode cap startId endId st a
          h1 h2 h3 ha.1 ha.2.1 ha.2.2]
      rfl
    · have hm' : m ∈ ms := by
        rcases List.mem_cons.mp hm with h | h
        · exact absurd (h ▸ htrig) ha
        · exact h
      have hskip : stepE k initR mode cap startId endId st a = Except.ok st := by
        apply stepE_skip
        by_cases hs : skipRange startId endId a.mapstats_id = true
        · exact Or.inl hs
        · have hs' : skipRange startId endId a.mapstats_id = false := by
            cases hb : skipRange startId endId a.mapstats_id
            · rfl
            · exact absurd hb hs
          by_cases hm2 : pyLower a.map_name = "anubis"
          · refine Or.inr (Or.inr ?_)
            cases hv : validateTeams a.team1_player_ids a.team2_player_ids
              a.team1_player_names a.team2_player_names
            · rfl
            · exact absurd ⟨hs', hm2, hv⟩ ha
          · exact Or.inr (Or.inl hm2)
      rw [List.foldlM_cons, hskip]
      have := ih st ⟨m, hm', htrig⟩
      simpa using this

/-- C7. `_round_weight` raises exactly on a mode outside `none`/`linear`/`sqrt`
(never silently defaulting), the per-match step propagates that error for every
in-range, on-map, validated match, and the whole replay fails whenever it
contains such a match. -/
theorem unknown_weight_mode_fatal (mode : String)
    (hmode : ¬ (mode = "none" ∨ mode = "linear" ∨ mode = "sqrt")) :
    (∀ (md : String) (r1 r2 : ℤ) (cap : ℝ),
      (∃ msg, roundWeight r1 r2 md cap = Except.error msg) ↔
        ¬ (md = "none" ∨ md = "linear" ∨ md = "sqrt")) ∧
    (∀ (k initR cap : ℝ) (startId endId : Option ℤ) (st : BState) (m : MatchRow),
      skipRange startId endId m.mapstats_id = false →
      pyLower m.map_name = "anubis" →
      validateTeams m.team1_player_ids m.team2_player_ids
        m.team1_player_names m.team2_player_names = true →
      stepE k initR mode cap startId endId st m =
        Except.error ("Unknown weight mode: " ++ mode)) ∧
    (∀ (k initR cap : ℝ) (startId endId : Option ℤ) (ms : List MatchRow)
        (pn : List (ℤ × String)),
      (∃ m ∈ ms, skipRange startId endId m.mapstats_id = false ∧
        pyLower m.map_name = "anubis" ∧
        validateTeams m.team1_player_ids m.team2_player_ids
          m.team1_player_names m.team2_player_names = true) →
      backtestE k initR mode cap startId endId ms pn =
        Except.error ("Unknown weight mode: " ++ mode)) := by
  push_neg at hmode
  obtain ⟨h1, h2, h3⟩ := hmode
  refine ⟨?_, ?_, ?_⟩
  · intro md r1 r2 cap
    by_cases e1 : md = "none"
    · subst e1
      simp [roundWeight]
    · by_cases e2 : md = "linear"
      · subst e2
        simp [roundWeight]
      · by_cases e3 : md = "sqrt"
        · subst e3
          simp [roundWeight]
        · simp only [e1, e2, e3, or_self, false_or, not_false_iff, iff_true]
          exact ⟨_, roundWeight_error_of_unknown r1 r2 md cap e1 e2 e3⟩
  · intro k initR cap startId endId st m hskip hmap hval
    exact stepE_error_of_unknown_mode k initR mode cap startId endId st m h1 h2 h3
      hskip hmap hval
  · intro k initR cap startId endId ms pn ⟨m, hm, htrig⟩
    have hm' : m ∈ sortMatches ms := by
      rw [sortMatches]
      exact (List.perm_insertionSort _ ms).mem_iff.mpr hm
    rw [backtestE, foldlM_error_of_unknown_mode k initR mode cap startId endId h1 h2 h3
      (sortMatches ms) _ ⟨m, hm', htrig⟩]
    rfl

theorem unknown_weight_mode_fatal_witness :
    ((∃ msg, roundWeight 16 4 "bogus" 2 = Except.error msg) ↔
      ¬ (("bogus" : String) = "none" ∨ ("bogus" : String) = "linear" ∨
        ("bogus" : String) = "sqrt")) ∧
    backtestE 24 1500 "bogus" 2 none none [winRow] [] =
      Except.error ("Unknown weight mode: " ++ "bogus") := by
  have h := unknown_weight_mode_fatal "bogus" (by decide)
  exact ⟨h.1 "bogus" 16 4 2,
    h.2.2 24 1500 2 none none [winRow] [] ⟨winRow, List.mem_cons_self _ _,
      rfl, rfl, by decide⟩⟩

/-! ## Claim C2: sorting before replay and permutation invariance -/

/-- Two permutations of a list with pairwise distinct match ids have the same
sorted order. -/
theorem sortMatches_eq_of_perm (l l' : List MatchRow)
    (hnd : l.Pairwise (fun a b => a.mapstats_id ≠ b.mapstats_id))
    (hp : List.Perm l' l) :
    sortMatches l' = sortMatches l := by
  haveI hTot : IsTotal MatchRow (fun a b => a.mapstats_id ≤ b.mapstats_id) :=
    ⟨fun a b => Int.le_total _ _⟩
  haveI hTrans : IsTrans MatchRow (fun a b => a.mapstats_id ≤ b.mapstats_id) :=
    ⟨fun _ _ _ hab hbc => le_trans hab hbc⟩
  haveI hAnti : IsAntisymm MatchRow (fun a b => a.mapstats_id < b.mapstats_id) :=
    ⟨fun _ _ hab hba => (lt_asymm hab hba).elim⟩
  have hsym : ∀ {a b : MatchRow}, a.mapstats_id ≠ b.mapstats_id →
      b.mapstats_id ≠ a.mapstats_id := fun h => Ne.symm h
  have hnd' : l'.Pairwise (fun a b => a.mapstats_id ≠ b.mapstats_id) :=
    (hp.pairwise_iff hsym).mpr hnd
  have strict : ∀ (t : List MatchRow),
      t.Pairwise (fun a b => a.mapstats_id ≠ b.mapstats_id) →
      (sortMatches t).Pairwise (fun a b => a.mapstats_id < b.mapstats_id) := by
    intro t ht
    have hle : (sortMatches t).Pairwise (fun a b => a.mapstats_id ≤ b.mapstats_id) :=
      List.sorted_insertionSort _ t
    have hne : (sortMatches t).Pairwise (fun a b => a.mapstats_id ≠ b.mapstats_id) := by
      rw [sortMatches]
      exact ((List.perm_insertionSort _ t).pairwise_iff hsym).mpr ht
    exact (hle.and hne).imp (fun h => lt_of_le_of_ne h.1 h.2)
  have hperm : List.Perm (sortMatches l') (sortMatches l) := by
    rw [sortMatches, sortMatches]
    exact ((List.perm_insertionSort _ l').trans hp).trans
      (List.perm_insertionSort _ l).symm
  exact List.eq_of_perm_of_sorted hperm (strict l' hnd') (strict l hnd)

/-- C2. The replay sorts ascending by match id before processing, so with
pairwise distinct match ids every permutation of the input produces the very
same processing order — hence identical final ratings, stats and metrics — and
every lower-id record is fully applied before a higher-id record is evaluated
(the processed sequence is sorted). -/
theorem replay_sorted_and_permutation_invariant (k initR : ℝ) (mode : String)
    (cap : ℝ) (startId endId : Option ℤ) (l l' : List MatchRow)
    (pn : List (ℤ × String))
    (hnd : l.Pairwise (fun a b => a.mapstats_id ≠ b.mapstats_id))
    (hp : List.Perm l' l) :
    (sortMatches l).Pairwise (fun a b => a.mapstats_id ≤ b.mapstats_id) ∧
    sortMatches l' = sortMatches l ∧
    backtestE k initR mode cap startId endId l' pn =
      backtestE k initR mode cap startId endId l pn := by
  haveI hTot : IsTotal MatchRow (fun a b => a.mapstats_id ≤ b.mapstats_id) :=
    ⟨fun a b => Int.le_total _ _⟩
  haveI hTrans : IsTrans MatchRow (fun a b => a.mapstats_id ≤ b.mapstats_id) :=
    ⟨fun _ _ _ hab hbc => le_trans hab hbc⟩
  have hsortEq := sortMatches_eq_of_perm l l' hnd hp
  refine ⟨List.sorted_insertionSort _ l, hsortEq, ?_⟩
  rw [backtestE, backtestE, hsortEq]

/-- A second valid Anubis record, with match id 2 and other competitors. -/
def winRowB : MatchRow :=
  ⟨2, "ev", "Anubis", "T3", "T4", 13, 7, [11, 12, 13, 14, 15], [16, 17, 18, 19, 20],
    ["k", "l", "m", "n", "o"], ["p", "q", "r", "s", "t"], "p"⟩

theorem replay_sorted_and_permutation_invariant_witness :
    ((sortMatches [winRow, winRowB]).Pairwise
      (fun a b => a.mapstats_id ≤ b.mapstats_id)) ∧
    sortMatches [winRowB, winRow] = sortMatches [winRow, winRowB] ∧
    backtestE 24 1500 "linear" 2 none none [winRowB, winRow] [] =
      backtestE 24 1500 "linear" 2 none none [winRow, winRowB] [] :=
  replay_sorted_and_permutation_invariant 24 1500 "linear" 2 none none
    [winRow, winRowB] [winRowB, winRow] [] (by decide)
    (List.Perm.swap winRow winRowB [])

/-! ## Claim C9: ratings and stats stay paired, with coherent counters -/

/-- The pairing invariant: the identifiers holding a rating are exactly those
holding a stats entry, and every stats entry has `games ≥ 1` and
`wins + losses ≤ games`. -/
def statsInv (r : List (ℤ × ℝ)) (s : List (ℤ × PStats)) : Prop :=
  (∀ pid : ℤ, (dictGet? r pid).isSome ↔ (dictGet? s pid).isSome) ∧
  (∀ (pid : ℤ) (g : PStats), dictGet? s pid = some g →
    1 ≤ g.games ∧ g.wins + g.losses ≤ g.games)

/-- The two update loops preserve the invariant, given that every entry that
does not yet satisfy `games ≥ 1` belongs to one of the two teams (it was just
created by `ensure`). -/
theorem afterUpdate_inv (delta delta2 initR : ℝ) (w1 l1 w2 l2 : ℕ)
    (hw1 : w1 + l1 ≤ 1) (hw2 : w2 + l2 ≤ 1) (t1 t2 : List ℤ)
    (r0 : List (ℤ × ℝ)) (s0 : List (ℤ × PStats))
    (hnd1 : t1.Nodup) (hnd2 : t2.Nodup) (hdisj : ∀ x ∈ t1, x ∉ t2)
    (hiff : ∀ pid : ℤ, (dictGet? r0 pid).isSome ↔ (dictGet? s0 pid).isSome)
    (hbound : ∀ (pid : ℤ) (g : PStats), dictGet? s0 pid = some g →
      g.wins + g.losses ≤ g.games ∧ (1 ≤ g.games ∨ pid ∈ t1 ∨ pid ∈ t2)) :
    statsInv (updateTeam delta2 initR w2 l2 t2 (updateTeam delta initR w1 l1 t1 (r0, s0))).1
      (updateTeam delta2 initR w2 l2 t2 (updateTeam delta initR w1 l1 t1 (r0, s0))).2 := by
  constructor
  · intro pid
    by_cases h2 : pid ∈ t2
    · obtain ⟨ha, hb⟩ := updateTeam_get?_mem delta2 initR w2 l2 t2 _ pid hnd2 h2
      rw [ha, hb]
      simp
    · obtain ⟨ha, hb⟩ := updateTeam_get?_notMem delta2 initR w2 l2 t2 _ pid h2
      rw [ha, hb]
      by_cases h1 : pid ∈ t1
      · obtain ⟨hc, hd⟩ := updateTeam_get?_mem delta initR w1 l1 t1 (r0, s0) pid hnd1 h1
        rw [hc, hd]
        simp
      · obtain ⟨hc, hd⟩ := updateTeam_get?_notMem delta initR w1 l1 t1 (r0, s0) pid h1
        rw [hc, hd]
        exact hiff pid
  · intro pid g hg
    by_cases h2 : pid ∈ t2
    · obtain ⟨_, hb⟩ := updateTeam_get?_mem delta2 initR w2 l2 t2 _ pid hnd2 h2
      rw [hb] at hg
      have hnot1 : pid ∉ t1 := fun h => hdisj pid h h2
      obtain ⟨_, hd⟩ := updateTeam_get?_notMem delta initR w1 l1 t1 (r0, s0) pid hnot1
      rw [hd] at hg
      obtain rfl : _ = g := Option.some.injEq .. ▸ hg
      cases hs0 : dictGet? s0 pid with
      | some g0 =>
        obtain ⟨hsum, _⟩ := hbound pid g0 hs0
        simp only [Option.getD_some]
        omega
      | none =>
        simp only [Option.getD_none]
        omega
    · obtain ⟨_, hb⟩ := updateTeam_get?_notMem delta2 initR w2 l2 t2 _ pid h2
      rw [hb] at hg
      by_cases h1 : pid ∈ t1
      · obtain ⟨_, hd⟩ := updateTeam_get?_mem delta initR w1 l1 t1 (r0, s0) pid hnd1 h1
        rw [hd] at hg
        obtain rfl : _ = g := Option.some.injEq .. ▸ hg
        cases hs0 : dictGet? s0 pid with
        | some g0 =>
          obtain ⟨hsum, _⟩ := hbound pid g0 hs0
          simp only [Option.getD_some]
          omega
        | none =>
          simp only [Option.getD_none]
          omega
      · obtain ⟨_, hd⟩ := updateTeam_get?_notMem delta initR w1 l1 t1 (r0, s0) pid h1
        rw [hd] at hg
        obtain ⟨hsum, hato⟩ := hbound pid g hg
        rcases hato with hga | hm | hm
        · exact ⟨hga, hsum⟩
        · exact absurd hm h1
        · exact absurd hm h2

/-- One validated step preserves the invariant. -/
theorem happyStep_inv (k initR w : ℝ) (st : BState) (m : MatchRow)
    (hval : validateTeams m.team1_player_ids m.team2_player_ids
      m.team1_player_names m.team2_player_names = true)
    (hInv : statsInv st.ratings st.stats) :
    statsInv (happyStep k initR w st m).ratings (happyStep k initR w st m).stats := by
  obtain ⟨hl1, hl2, hl3, hl4, hnd1, hnd2, hdisj⟩ := validateTeams_true_iff _ _ _ _ hval
  have hiff : ∀ pid : ℤ,
      (dictGet? (ensureAll initR (st.ratings, st.stats)
        (m.team1_player_ids ++ m.team2_player_ids)).1 pid).isSome ↔
      (dictGet? (ensureAll initR (st.ratings, st.stats)
        (m.team1_player_ids ++ m.team2_player_ids)).2 pid).isSome := by
    intro pid
    rw [ensureAll_fst_get?, ensureAll_snd_get?]
    cases hr : dictGet? st.ratings pid with
    | some v =>
      have : (dictGet? st.stats pid).isSome := (hInv.1 pid).mp (by rw [hr]; rfl)
      cases hs : dictGet? st.stats pid with
      | some g => simp
      | none => rw [hs] at this; simp at this
    | none =>
      have : ¬ (dictGet? st.stats pid).isSome := fun h => by
        have := (hInv.1 pid).mpr h
        rw [hr] at this
        simp at this
      cases hs : dictGet? st.stats pid with
      | some g => exact absurd (by rw [hs]; rfl) this
      | none =>
        by_cases hm : pid ∈ m.team1_player_ids ++ m.team2_player_ids <;> simp [hm]
  have hbound : ∀ (pid : ℤ) (g : PStats),
      dictGet? (ensureAll initR (st.ratings, st.stats)
        (m.team1_player_ids ++ m.team2_player_ids)).2 pid = some g →
      g.wins + g.losses ≤ g.games ∧
        (1 ≤ g.games ∨ pid ∈ m.team1_player_ids ∨ pid ∈ m.team2_player_ids) := by
    intro pid g hg
    rw [ensureAll_snd_get?] at hg
    cases hs : dictGet? st.stats pid with
    | some g0 =>
      rw [hs] at hg
      obtain rfl : g0 = g := Option.some.injEq .. ▸ hg
      obtain ⟨hga, hsum⟩ := hInv.2 pid g0 hs
      exact ⟨hsum, Or.inl hga⟩
    | none =>
      rw [hs] at hg
      by_cases hm : pid ∈ m.team1_player_ids ++ m.team2_player_ids
      · rw [if_pos hm] at hg
        obtain rfl : (⟨0, 0, 0⟩ : PStats) = g := Option.some.injEq .. ▸ hg
        exact ⟨le_refl 0, Or.inr (List.mem_append.mp hm)⟩
      · rw [if_neg hm] at hg
        cases hg
  have hw1 : (if winnerScore m.team1_rounds m.team2_rounds = 1 then 1 else 0) +
      (if winnerScore m.team1_rounds m.team2_rounds = 0 then 1 else 0) ≤ 1 := by
    by_cases h1 : winnerScore m.team1_rounds m.team2_rounds = 1
    · have h0 : ¬ winnerScore m.team1_rounds m.team2_rounds = 0 := by
        rw [h1]; norm_num
      rw [if_pos h1, if_neg h0]
    · rw [if_neg h1]
      by_cases h0 : winnerScore m.team1_rounds m.team2_rounds = 0 <;> simp [h0]
  have hw2 : (if winnerScore m.team1_rounds m.team2_rounds = 0 then 1 else 0) +
      (if winnerScore m.team1_rounds m.team2_rounds = 1 then 1 else 0) ≤ 1 := by
    omega
  exact afterUpdate_inv _ _ initR _ _ _ _ hw1 hw2
    m.team1_player_ids m.team2_player_ids _ _ hnd1 hnd2 hdisj hiff hbound

/-- Any successful step preserves the invariant. -/
theorem stepE_inv (k initR : ℝ) (mode : String) (cap : ℝ) (startId endId : Option ℤ)
    (st : BState) (m : MatchRow) (st' : BState)
    (h : stepE k initR mode cap startId endId st m = Except.ok st')
    (hInv : statsInv st.ratings st.stats) : statsInv st'.ratings st'.stats := by
  rw [stepE] at h
  by_cases hs : skipRange startId endId m.mapstats_id
  · rw [if_pos hs] at h
    obtain rfl : st = st' := Except.ok.injEq .. ▸ h
    exact hInv
  · rw [if_neg hs] at h
    by_cases hm : pyLower m.map_name = "anubis"
    · rw [if_neg (by simpa using hm)] at h
      by_cases hv : validateTeams m.team1_player_ids m.team2_player_ids
          m.team1_player_names m.team2_player_names
      · rw [if_neg (by simpa using hv)] at h
        cases hrw : roundWeight m.team1_rounds m.team2_rounds mode cap with
        | error msg => rw [hrw] at h; cases h
        | ok w =>
          rw [hrw] at h
          obtain rfl : happyStep k initR w st m = st' := Except.ok.injEq .. ▸ h
          exact happyStep_inv k initR w st m hv hInv
      · rw [if_pos (by simpa using hv)] at h
        obtain rfl : st = st' := Except.ok.injEq .. ▸ h
        exact hInv
    · rw [if_pos (by simpa using hm)] at h
      obtain rfl : st = st' := Except.ok.injEq .. ▸ h
      exact hInv

/-- The whole replay fold preserves the invariant. -/
theorem foldlM_inv (k initR : ℝ) (mode : String) (cap : ℝ) (startId endId : Option ℤ) :
    ∀ (ms : List MatchRow) (st : BState), statsInv st.ratings st.stats →
      ∀ st', List.foldlM (stepE k initR mode cap startId endId) st ms = Except.ok st' →
      statsInv st'.ratings st'.stats := by
  intro ms
  induction ms with
  | nil =>
    intro st hInv st' h
    obtain rfl : st = st' := Except.ok.injEq .. ▸ h
    exact hInv
  | cons a ms ih =>
    intro st hInv st' h
    rw [List.foldlM_cons] at h
    cases hstep : stepE k initR mode cap startId endId st a with
    | error msg =>
      rw [hstep] at h
      cases h
    | ok st1 =>
      rw [hstep] at h
      exact ih st1 (stepE_inv k initR mode cap startId endId st a st1 hstep hInv) st' h

/-- C9. After a successful replay, the identifiers holding a rating are exactly
those holding a stats entry, and every stats entry has `games ≥ 1` and
`wins + losses ≤ games`. (The same holds after every prefix of the replay,
since the fold preserves the invariant step by step.) -/
theorem ratings_stats_paired (k initR : ℝ) (mode : String) (cap : ℝ)
    (startId endId : Option ℤ) (ms : List MatchRow) (pn : List (ℤ × String))
    (r : List (ℤ × ℝ)) (s : List (ℤ × PStats)) (met : Metrics)
    (hok : backtestE k initR mode cap startId endId ms pn = Except.ok (r, s, met)) :
    (∀ pid : ℤ, (dictGet? r pid).isSome ↔ (dictGet? s pid).isSome) ∧
    (∀ (pid : ℤ) (g : PStats), dictGet? s pid = some g →
      1 ≤ g.games ∧ g.wins + g.losses ≤ g.games) := by
  rw [backtestE] at hok
  cases hfold : List.foldlM (stepE k initR mode cap startId endId)
      (⟨[], [], pn, 0, 0, 0⟩ : BState) (sortMatches ms) with
  | error msg =>
    rw [hfold] at hok
    cases hok
  | ok st =>
    rw [hfold] at hok
    have h0 : statsInv ([] : List (ℤ × ℝ)) ([] : List (ℤ × PStats)) := by
      constructor
      · intro pid
        simp [dictGet?]
      · intro pid g hg
        simp [dictGet?] at hg
    have hInv := foldlM_inv k initR mode cap startId endId (sortMatches ms)
      ⟨[], [], pn, 0, 0, 0⟩ h0 st hfold
    have hr : st.ratings = r ∧ st.stats = s := by
      have := Except.ok.injEq .. ▸ hok
      exact ⟨congrArg (fun x => x.1) this, congrArg (fun x => x.2.1) this⟩
    obtain ⟨hr1, hr2⟩ := hr
    rw [← hr1, ← hr2]
    exact ⟨hInv.1, fun pid g hg => hInv.2 pid g hg⟩

theorem ratings_stats_paired_witness :
    backtestE 24 1500 "none" 2 none none ([] : List MatchRow) [] =
      Except.ok (([] : List (ℤ × ℝ)), ([] : List (ℤ × PStats)),
        (⟨0, 0, 0⟩ : Metrics)) ∧
    ((∀ pid : ℤ, (dictGet? ([] : List (ℤ × ℝ)) pid).isSome ↔
        (dictGet? ([] : List (ℤ × PStats)) pid).isSome) ∧
     (∀ (pid : ℤ) (g : PStats), dictGet? ([] : List (ℤ × PStats)) pid = some g →
        1 ≤ g.games ∧ g.wins + g.losses ≤ g.games)) := by
  have hbt : backtestE 24 1500 "none" 2 none none ([] : List MatchRow) [] =
      Except.ok (([] : List (ℤ × ℝ)), ([] : List (ℤ × PStats)),
        (⟨0, 0, 0⟩ : Metrics)) := by
    rw [backtestE, show sortMatches ([] : List MatchRow) = [] from rfl]
    simp only [List.foldlM]
    norm_num
    rfl
  exact ⟨hbt, ratings_stats_paired 24 1500 "none" 2 none none [] [] [] [] ⟨0, 0, 0⟩ hbt⟩

/-- A raw CSV row whose team-1 id list carries a non-digit token. -/
def rawRow : CsvRow :=
  ⟨"7", "ev", "Anubis", "T1", "T2", "16", "4", "1,2,3,x", "6,7,8,9,10",
    "a,b,c,d", "f,g,h,i,j", "p"⟩

/-! ## Claim C10: non-digit id tokens are dropped by parsing, rows survive -/

theorem foldl_filter_append {α β : Type} (c : α → Bool) (f : α → β) :
    ∀ (parts : List α) (acc : List β),
      parts.foldl (fun out p => if c p then out ++ [f p] else out) acc =
        acc ++ (parts.filter c).map f := by
  intro parts
  induction parts with
  | nil =>
    intro acc
    simp
  | cons a parts ih =>
    intro acc
    by_cases hc : c a
    · simp [List.foldl_cons, hc, ih]
    · simp [List.foldl_cons, hc, ih]

/-- `_parse_int_list` keeps exactly the stripped tokens passing `isdigit`, in
order, converted to their numeric value; every other token is silently
dropped. -/
theorem parseIntList_eq_filter (s : String) :
    parseIntList s =
      ((pySplitComma (pyTrim s)).filter (fun p => pyIsDigit (pyTrim p))).map
        (fun p => (digitsVal (pyTrim p) : ℤ)) := by
  simp only [parseIntList]
  by_cases h : (pyTrim s).data = []
  · rw [if_pos h]
    have he : pyTrim s = ⟨[]⟩ := by
      cases hs : pyTrim s
      rw [hs] at h
      simp at h
      simp [h]
    rw [he]
    rfl
  · rw [if_neg h]
    have := foldl_filter_append (fun p => pyIsDigit (pyTrim p))
      (fun p => (digitsVal (pyTrim p) : ℤ)) (pySplitComma (pyTrim s)) []
    simpa using this

/-- C10. A row whose three numeric fields parse is always retained, with each
id-list field reduced to its digit tokens (non-digit tokens, negative numbers
included, are silently dropped rather than failing the row); and a match whose
team-1 id list does not have exactly 5 entries is excluded from the replay by
team validation, with the state untouched. -/
theorem bad_tokens_dropped_row_kept (row : CsvRow) (a b c : ℤ)
    (ha : pyInt row.mapstats_id = some a)
    (hb : pyInt row.team1_rounds = some b)
    (hc : pyInt row.team2_rounds = some c) :
    rowToMatch row = some ⟨a, row.event_name, row.map_name, row.team1_name,
      row.team2_name, b, c, parseIntList row.team1_player_ids,
      parseIntList row.team2_player_ids, parseStrList row.team1_player_names,
      parseStrList row.team2_player_names, row.source_path⟩ ∧
    (∀ s : String, parseIntList s =
      ((pySplitComma (pyTrim s)).filter (fun p => pyIsDigit (pyTrim p))).map
        (fun p => (digitsVal (pyTrim p) : ℤ))) ∧
    (∀ (m : MatchRow) (k initR : ℝ) (mode : String) (cap : ℝ)
        (startId endId : Option ℤ) (st : BState),
      m.team1_player_ids.length ≠ 5 →
      stepE k initR mode cap startId endId st m = Except.ok st) := by
  refine ⟨?_, fun s => parseIntList_eq_filter s, ?_⟩
  · rw [rowToMatch, ha, hb, hc]
  · intro m k initR mode cap startId endId st hlen
    apply stepE_skip
    refine Or.inr (Or.inr ?_)
    simp [validateTeams, hlen]

theorem bad_tokens_dropped_row_kept_witness :
    pyInt rawRow.mapstats_id = some 7 ∧
    parseIntList rawRow.team1_player_ids = [1, 2, 3] ∧
    (rowToMatch rawRow = some ⟨7, rawRow.event_name, rawRow.map_name, rawRow.team1_name,
      rawRow.team2_name, 16, 4, parseIntList rawRow.team1_player_ids,
      parseIntList rawRow.team2_player_ids, parseStrList rawRow.team1_player_names,
      parseStrList rawRow.team2_player_names, rawRow.source_path⟩ ∧
    (∀ s : String, parseIntList s =
      ((pySplitComma (pyTrim s)).filter (fun p => pyIsDigit (pyTrim p))).map
        (fun p => (digitsVal (pyTrim p) : ℤ))) ∧
    (∀ (m : MatchRow) (k initR : ℝ) (mode : String) (cap : ℝ)
        (startId endId : Option ℤ) (st : BState),
      m.team1_player_ids.length ≠ 5 →
      stepE k initR mode cap startId endId st m = Except.ok st)) :=
  ⟨by decide, by decide,
   bad_tokens_dropped_row_kept rawRow 7 16 4 (by decide) (by decide) (by decide)⟩

/-! ## Claim C5: canonical-name collision handling -/

/-- A record whose observed names make the canonical map send ids 1 and 2 to
"a" and id 3 to "a (1)". -/
def collideRow : MatchRow :=
  ⟨1, "ev", "Anubis", "T1", "T2", 16, 4, [1, 2, 3], [],
    ["a", "a", "a (1)"], [], "p"⟩

/-- C5, as stated, is false: after canonical-name building and collision
disambiguation on this record set, ids 1 and 3 both display as "a (1)". -/
theorem canonical_uniqueness_counterexample :
    dictGet? (makeUniqueNames (buildCanonicalNameMap [collideRow])) 1 = some "a (1)" ∧
    dictGet? (makeUniqueNames (buildCanonicalNameMap [collideRow])) 3 = some "a (1)" ∧
    (1 : ℤ) ≠ 3 := by
  refine ⟨by decide, by decide, by decide⟩

/-- Decimal value of a digit string, the left fold used by `int()`. -/
def natVal (l : List Char) : ℕ :=
  l.foldl (fun a c => a * 10 + (c.toNat - 48)) 0

theorem natVal_append_single (l : List Char) (ch : Char) :
    natVal (l ++ [ch]) = 10 * natVal l + (ch.toNat - 48) := by
  rw [natVal, natVal, List.foldl_append]
  simp [Nat.mul_comm]

theorem digitChar_toNat : ∀ d < 10, (digitChar d).toNat - 48 = d := by decide

theorem digitChar_ne_hyphen : ∀ d : ℕ, digitChar d ≠ '-' := by
  intro d
  rw [digitChar]
  split_ifs <;> decide

theorem digitChar_ne_lparen : ∀ d : ℕ, digitChar d ≠ '(' := by
  intro d
  rw [digitChar]
  split_ifs <;> decide

theorem natReprAux_val : ∀ (fuel n : ℕ), n < 10 ^ fuel →
    natVal (natReprAux fuel n) = n := by
  intro fuel
  induction fuel with
  | zero =>
    intro n hn
    interval_cases n
    rfl
  | succ fuel ih =>
    intro n hn
    rw [natReprAux]
    by_cases h : n < 10
    · rw [if_pos h]
      have := digitChar_toNat n h
      simp [natVal, this]
    · rw [if_neg h]
      rw [natVal_append_single]
      have hdiv : n / 10 < 10 ^ fuel := by
        rw [Nat.div_lt_iff_lt_mul (by norm_num)]
        calc n < 10 ^ (fuel + 1) := hn
        _ = 10 ^ fuel * 10 := by ring
      rw [ih (n / 10) hdiv, digitChar_toNat (n % 10) (Nat.mod_lt n (by norm_num))]
      omega

theorem natRepr_val (n : ℕ) : natVal (natRepr n) = n := by
  apply natReprAux_val
  calc n < 2 ^ n := Nat.lt_two_pow n
  _ ≤ 10 ^ n := Nat.pow_le_pow_left (by norm_num) n
  _ ≤ 10 ^ (n + 1) := Nat.pow_le_pow_right (by norm_num) (Nat.le_succ n)

theorem natRepr_injective (m n : ℕ) (h : natRepr m = natRepr n) : m = n := by
  have hm := natRepr_val m
  rw [h, natRepr_val n] at hm
  exact hm.symm

/-- Every character written by `natReprAux` is a decimal digit character. -/
theorem natReprAux_chars : ∀ (fuel n : ℕ) (c : Char), c ∈ natReprAux fuel n →
    ∃ d : ℕ, c = digitChar d := by
  intro fuel
  induction fuel with
  | zero =>
    intro n c hc
    simp [natReprAux] at hc
  | succ fuel ih =>
    intro n c hc
    rw [natReprAux] at hc
    by_cases h : n < 10
    · rw [if_pos h] at hc
      simp at hc
      exact ⟨n, hc⟩
    · rw [if_neg h] at hc
      rcases List.mem_append.mp hc with hc | hc
      · exact ih (n / 10) c hc
      · simp at hc
        exact ⟨n % 10, hc⟩

theorem hyphen_not_mem_natRepr (n : ℕ) : '-' ∉ natRepr n := by
  intro hmem
  obtain ⟨d, hd⟩ := natReprAux_chars (n + 1) n '-' hmem
  exact digitChar_ne_hyphen d hd.symm

theorem lparen_not_mem_natRepr (n : ℕ) : '(' ∉ natRepr n := by
  intro hmem
  obtain ⟨d, hd⟩ := natReprAux_chars (n + 1) n '(' hmem
  exact digitChar_ne_lparen d hd.symm

theorem natRepr_ne_nil (n : ℕ) : natRepr n ≠ [] := by
  rw [natRepr, natReprAux]
  by_cases h : n < 10
  · rw [if_pos h]
    simp
  · rw [if_neg h]
    simp

/-- The data of `str(i)`. -/
theorem pyStr_data (i : ℤ) :
    (pyStr i).data = if i < 0 then '-' :: natRepr i.natAbs else natRepr i.toNat := by
  rw [pyStr]
  by_cases h : i < 0 <;> simp [h]

theorem lparen_not_mem_pyStr (i : ℤ) : '(' ∉ (pyStr i).data := by
  rw [pyStr_data]
  by_cases h : i < 0
  · rw [if_pos h]
    intro hmem
    rcases List.mem_cons.mp hmem with hc | hc
    · cases hc
    · exact lparen_not_mem_natRepr _ hc
  · rw [if_neg h]
    exact lparen_not_mem_natRepr _

theorem pyStr_injective (i j : ℤ) (h : pyStr i = pyStr j) : i = j := by
  have hd : (pyStr i).data = (pyStr j).data := by rw [h]
  rw [pyStr_data, pyStr_data] at hd
  by_cases hi : i < 0 <;> by_cases hj : j < 0
  · rw [if_pos hi, if_pos hj] at hd
    have := natRepr_injective i.natAbs j.natAbs (List.cons.injEq .. ▸ hd).2
    omega
  · rw [if_pos hi, if_neg hj] at hd
    exfalso
    apply hyphen_not_mem_natRepr j.toNat
    rw [← hd]
    exact List.mem_cons_self _ _
  · rw [if_neg hi, if_pos hj] at hd
    exfalso
    apply hyphen_not_mem_natRepr i.toNat
    rw [hd]
    exact List.mem_cons_self _ _
  · rw [if_neg hi, if_neg hj] at hd
    have := natRepr_injective i.toNat j.toNat hd
    omega

/-- The ids whose chosen name is `nm`, in dict order. -/
def groupPids (d : List (ℤ × String)) (nm : String) : List ℤ :=
  (d.filter (fun p => decide (p.2 = nm))).map Prod.fst

theorem mem_groupPids (d : List (ℤ × String)) (nm : String) (pid : ℤ) :
    pid ∈ groupPids d nm ↔ (pid, nm) ∈ d := by
  rw [groupPids]
  constructor
  · intro h
    rcases List.mem_map.mp h with ⟨p, hp, hfst⟩
    rcases List.mem_filter.mp hp with ⟨hpd, hsnd⟩
    have h2 : p.2 = nm := of_decide_eq_true hsnd
    have : p = (pid, nm) := by
      cases p
      simp at hfst h2
      simp [hfst, h2]
    exact this ▸ hpd
  · intro h
    apply List.mem_map.mpr
    exact ⟨(pid, nm), List.mem_filter.mpr ⟨h, by simp⟩, rfl⟩

theorem groupPids_nodup (d : List (ℤ × String)) (nm : String)
    (hnd : (d.map Prod.fst).Nodup) : (groupPids d nm).Nodup := by
  rw [groupPids]
  exact hnd.sublist (List.Sublist.map Prod.fst (List.filter_sublist d))

theorem groupPids_cons (p : ℤ) (q : String) (d : List (ℤ × String)) (nm : String) :
    groupPids ((p, q) :: d) nm =
      if q = nm then p :: groupPids d nm else groupPids d nm := by
  rw [groupPids, groupPids]
  by_cases hq : q = nm
  · simp [List.filter_cons, hq]
  · simp [List.filter_cons, hq]

/-- The grouping fold of `_make_unique_names`, characterized. -/
theorem buildNameToPids_foldl_get? :
    ∀ (d : List (ℤ × String)) (acc : List (String × List ℤ)) (nm : String),
      dictGet? (d.foldl
        (fun acc p => dictSet acc p.2 ((dictGet? acc p.2).getD [] ++ [p.1])) acc) nm =
        if groupPids d nm = [] then dictGet? acc nm
        else some ((dictGet? acc nm).getD [] ++ groupPids d nm) := by
  intro d
  induction d with
  | nil =>
    intro acc nm
    simp [groupPids]
  | cons x d ih =>
    obtain ⟨p, q⟩ := x
    intro acc nm
    rw [List.foldl_cons]
    rw [ih (dictSet acc q ((dictGet? acc q).getD [] ++ [p])) nm]
    by_cases hq : q = nm
    · subst hq
      rw [groupPids_cons, if_pos rfl]
      rw [dictGet?_set_self]
      by_cases hrest : groupPids d q = []
      · rw [if_pos hrest]
        simp [hrest]
      · rw [if_neg hrest]
        rw [if_neg (by simp)]
        simp
    · rw [groupPids_cons, if_neg hq]
      rw [dictGet?_set_ne acc q nm _ (Ne.symm hq)]

theorem buildNameToPids_get? (d : List (ℤ × String)) (nm : String) :
    dictGet? (buildNameToPids d) nm =
      if groupPids d nm = [] then none else some (groupPids d nm) := by
  rw [buildNameToPids, buildNameToPids_foldl_get? d [] nm]
  by_cases h : groupPids d nm = [] <;> simp [h, dictGet?]

theorem nodupKeys_foldl_dictSet {K V A : Type} [DecidableEq K] (key : A → K)
    (val : List (K × V) → A → V) :
    ∀ (l : List A) (acc : List (K × V)), (acc.map Prod.fst).Nodup →
      ((l.foldl (fun acc x => dictSet acc (key x) (val acc x)) acc).map Prod.fst).Nodup := by
  intro l
  induction l with
  | nil =>
    intro acc h
    exact h
  | cons a l ih =>
    intro acc h
    rw [List.foldl_cons]
    exact ih _ (nodupKeys_dictSet acc (key a) (val acc a) h)

theorem nodupKeys_buildNameToPids (d : List (ℤ × String)) :
    ((buildNameToPids d).map Prod.fst).Nodup := by
  rw [buildNameToPids]
  exact nodupKeys_foldl_dictSet Prod.snd
    (fun acc p => (dictGet? acc p.2).getD [] ++ [p.1]) d [] (by simp)

/-- Every entry of the grouping dict is a (name, its full group) pair. -/
theorem mem_buildNameToPids (d : List (ℤ × String)) (nm : String) (l : List ℤ)
    (hmem : (nm, l) ∈ buildNameToPids d) : l = groupPids d nm ∧ groupPids d nm ≠ [] := by
  have h := dictGet?_eq_of_mem (buildNameToPids d) nm l (nodupKeys_buildNameToPids d) hmem
  rw [buildNameToPids_get? d nm] at h
  by_cases hg : groupPids d nm = []
  · rw [if_pos hg] at h
    cases h
  · rw [if_neg hg] at h
    have := Option.some.injEq .. ▸ h
    exact ⟨this.symm, hg⟩

theorem foldl_dictSet_get?_notMem {K V : Type} [DecidableEq K] (f : K → V) :
    ∀ (l : List K) (o : List (K × V)) (k : K), k ∉ l →
      dictGet? (l.foldl (fun o q => dictSet o q (f q)) o) k = dictGet? o k := by
  intro l
  induction l with
  | nil =>
    intro o k _
    rfl
  | cons a l ih =>
    intro o k hk
    rw [List.foldl_cons]
    have hne : k ≠ a := fun h => hk (h ▸ List.mem_cons_self a l)
    rw [ih _ k (fun h => hk (List.mem_cons_of_mem a h)), dictGet?_set_ne o a k _ hne]

theorem foldl_dictSet_get?_mem {K V : Type} [DecidableEq K] (f : K → V) :
    ∀ (l : List K) (o : List (K × V)) (k : K), l.Nodup → k ∈ l →
      dictGet? (l.foldl (fun o q => dictSet o q (f q)) o) k = some (f k) := by
  intro l
  induction l with
  | nil =>
    intro o k _ hk
    cases hk
  | cons a l ih =>
    intro o k hnd hk
    rw [List.nodup_cons] at hnd
    rw [List.foldl_cons]
    rcases List.mem_cons.mp hk with rfl | hk'
    · rw [foldl_dictSet_get?_notMem f l _ k hnd.1, dictGet?_set_self]
    · exact ih _ k hnd.2 hk'

theorem mem_sortInts (l : List ℤ) (x : ℤ) : x ∈ sortInts l ↔ x ∈ l := by
  rw [sortInts]
  exact (List.perm_insertionSort _ l).mem_iff

theorem nodup_sortInts (l : List ℤ) (h : l.Nodup) : (sortInts l).Nodup := by
  rw [sortInts]
  exact (List.perm_insertionSort _ l).nodup_iff.mpr h

/-- The rewrite fold of `_make_unique_names`, characterized: an id is rewritten
exactly when some processed group carries its name and has two or more members;
ids outside every group keep their current binding. -/
theorem rewriteFold_get? (d : List (ℤ × String)) (hnd : (d.map Prod.fst).Nodup) :
    ∀ (gs : List (String × List ℤ)) (o : List (ℤ × String)),
      (∀ g ∈ gs, g.2 = groupPids d g.1) →
      ((gs.map Prod.fst).Nodup) →
      ∀ pid : ℤ,
        (∀ nm : String, dictGet? d pid = some nm →
          dictGet? (gs.foldl
            (fun out p =>
              if p.2.length ≤ 1 then out
              else
                (sortInts p.2).foldl
                  (fun out2 pid => dictSet out2 pid (p.1 ++ " (" ++ pyStr pid ++ ")")) out)
            o) pid =
            if ∃ g ∈ gs, g.1 = nm ∧ 2 ≤ g.2.length
            then some (nm ++ " (" ++ pyStr pid ++ ")")
            else dictGet? o pid) ∧
        (dictGet? d pid = none →
          dictGet? (gs.foldl
            (fun out p =>
              if p.2.length ≤ 1 then out
              else
                (sortInts p.2).foldl
                  (fun out2 pid => dictSet out2 pid (p.1 ++ " (" ++ pyStr pid ++ ")")) out)
            o) pid = dictGet? o pid) := by
  intro gs
  induction gs with
  | nil =>
    intro o _ _ pid
    constructor
    · intro nm _
      have hno : ¬ ∃ g ∈ ([] : List (String × List ℤ)), g.1 = nm ∧ 2 ≤ g.2.length := by
        rintro ⟨g, hg, _⟩
        cases hg
      rw [if_neg hno]
      rfl
    · intro _
      rfl
  | cons g gs ih =>
    intro o hspec hnodup pid
    have hgspec : g.2 = groupPids d g.1 := hspec g (List.mem_cons_self g gs)
    have hspec' : ∀ g' ∈ gs, g'.2 = groupPids d g'.1 :=
      fun g' hg' => hspec g' (List.mem_cons_of_mem g hg')
    rw [List.map_cons, List.nodup_cons] at hnodup
    have hmemg : ∀ q : ℤ, q ∈ g.2 → dictGet? d q = some g.1 := by
      intro q hq
      rw [hgspec] at hq
      exact dictGet?_eq_of_mem d q g.1 hnd ((mem_groupPids d g.1 q).mp hq)
    constructor
    · intro nm hdnm
      rw [List.foldl_cons]
      by_cases hlen : g.2.length ≤ 1
      · rw [if_pos hlen]
        rw [(ih o hspec' hnodup.2 pid).1 nm hdnm]
        have hcond : (∃ g' ∈ g :: gs, g'.1 = nm ∧ 2 ≤ g'.2.length) ↔
            (∃ g' ∈ gs, g'.1 = nm ∧ 2 ≤ g'.2.length) := by
          constructor
          · rintro ⟨g', hg', hnm, hlen'⟩
            rcases List.mem_cons.mp hg' with rfl | hg''
            · omega
            · exact ⟨g', hg'', hnm, hlen'⟩
          · rintro ⟨g', hg', hnm, hlen'⟩
            exact ⟨g', List.mem_cons_of_mem g hg', hnm, hlen'⟩
        by_cases hc : ∃ g' ∈ gs, g'.1 = nm ∧ 2 ≤ g'.2.length
        · rw [if_pos hc, if_pos (hcond.mpr hc)]
        · rw [if_neg hc, if_neg (fun h => hc (hcond.mp h))]
      · rw [if_neg hlen]
        have hlen2 : 2 ≤ g.2.length := by omega
        by_cases hgnm : g.1 = nm
        · have hpidg : pid ∈ g.2 := by
            rw [hgspec, hgnm]
            exact (mem_groupPids d nm pid).mpr (mem_of_dictGet?_eq d pid nm hdnm)
          have hnotgs : ¬ ∃ g' ∈ gs, g'.1 = nm ∧ 2 ≤ g'.2.length := by
            rintro ⟨g', hg', hnm', _⟩
            apply hnodup.1
            have hmm : g'.1 ∈ gs.map Prod.fst := List.mem_map_of_mem Prod.fst hg'
            rw [hnm', ← hgnm] at hmm
            exact hmm
          rw [(ih _ hspec' hnodup.2 pid).1 nm hdnm, if_neg hnotgs]
          rw [foldl_dictSet_get?_mem (fun q => g.1 ++ " (" ++ pyStr q ++ ")")
            (sortInts g.2) o pid
            (nodup_sortInts g.2 (hgspec ▸ groupPids_nodup d g.1 hnd))
            ((mem_sortInts g.2 pid).mpr hpidg)]
          rw [if_pos ⟨g, List.mem_cons_self g gs, hgnm, hlen2⟩, hgnm]
        · have hpidg : pid ∉ g.2 := by
            intro hq
            have h1 := hmemg pid hq
            rw [hdnm] at h1
            exact hgnm (Option.some.injEq .. ▸ h1 : nm = g.1).symm
          rw [(ih _ hspec' hnodup.2 pid).1 nm hdnm]
          rw [foldl_dictSet_get?_notMem (fun q => g.1 ++ " (" ++ pyStr q ++ ")")
            (sortInts g.2) o pid (fun h => hpidg ((mem_sortInts g.2 pid).mp h))]
          have hcond : (∃ g' ∈ g :: gs, g'.1 = nm ∧ 2 ≤ g'.2.length) ↔
              (∃ g' ∈ gs, g'.1 = nm ∧ 2 ≤ g'.2.length) := by
            constructor
            · rintro ⟨g', hg', hnm, hlen'⟩
              rcases List.mem_cons.mp hg' with rfl | hg''
              · exact absurd hnm hgnm
              · exact ⟨g', hg'', hnm, hlen'⟩
            · rintro ⟨g', hg', hnm, hlen'⟩
              exact ⟨g', List.mem_cons_of_mem g hg', hnm, hlen'⟩
          by_cases hc : ∃ g' ∈ gs, g'.1 = nm ∧ 2 ≤ g'.2.length
          · rw [if_pos hc, if_pos (hcond.mpr hc)]
          · rw [if_neg hc, if_neg (fun h => hc (hcond.mp h))]
    · intro hdn
      rw [List.foldl_cons]
      have hpidg : pid ∉ g.2 := by
        intro hq
        have := hmemg pid hq
        rw [hdn] at this
        cases this
      by_cases hlen : g.2.length ≤ 1
      · rw [if_pos hlen]
        exact (ih o hspec' hnodup.2 pid).2 hdn
      · rw [if_neg hlen]
        rw [(ih _ hspec' hnodup.2 pid).2 hdn]
        exact foldl_dictSet_get?_notMem (fun q => g.1 ++ " (" ++ pyStr q ++ ")")
          (sortInts g.2) o pid (fun h => hpidg ((mem_sortInts g.2 pid).mp h))

/-- A list is characterized by what precedes and follows the first occurrence
of a character absent from both prefixes. -/
theorem append_cons_inj (c : Char) :
    ∀ (A1 A2 B1 B2 : List Char), c ∉ A1 → c ∉ A2 →
      A1 ++ c :: B1 = A2 ++ c :: B2 → A1 = A2 ∧ B1 = B2 := by
  intro A1
  induction A1 with
  | nil =>
    intro A2 B1 B2 _ h2 heq
    cases A2 with
    | nil =>
      simpa using heq
    | cons a A2 =>
      simp only [List.nil_append, List.cons_append] at heq
      obtain ⟨hca, _⟩ := List.cons.injEq .. ▸ heq
      exact absurd (hca ▸ List.mem_cons_self a A2) h2
  | cons a A1 ih =>
    intro A2 B1 B2 h1 h2 heq
    cases A2 with
    | nil =>
      simp only [List.cons_append, List.nil_append] at heq
      obtain ⟨hca, _⟩ := List.cons.injEq .. ▸ heq
      exact absurd (hca ▸ List.mem_cons_self a A1) h1
    | cons b A2 =>
      simp only [List.cons_append] at heq
      obtain ⟨hab, htail⟩ := List.cons.injEq .. ▸ heq
      have h1' : c ∉ A1 := fun h => h1 (List.mem_cons_of_mem a h)
      have h2' : c ∉ A2 := fun h => h2 (List.mem_cons_of_mem b h)
      obtain ⟨hA, hB⟩ := ih A2 B1 B2 h1' h2' htail
      exact ⟨by rw [hab, hA], hB⟩

theorem concat_inj (X Y : List Char) (x y : Char) (h : X ++ [x] = Y ++ [y]) :
    X = Y ∧ x = y := by
  have h2 := congrArg List.reverse h
  simp only [List.reverse_append, List.reverse_cons, List.reverse_nil, List.nil_append,
    List.singleton_append] at h2
  obtain ⟨h3, h4⟩ := List.cons.injEq .. ▸ h2
  exact ⟨by simpa using congrArg List.reverse h4, h3⟩

/-- The characters of a rewritten display string. -/
theorem rewritten_data (nm : String) (i : ℤ) :
    (nm ++ " (" ++ pyStr i ++ ")").data =
      (nm.data ++ [' ']) ++ '(' :: ((pyStr i).data ++ [')']) := by
  rw [String.data_append, String.data_append, String.data_append]
  rw [show (" (" : String).data = [' ', '('] from rfl,
    show (")" : String).data = [')'] from rfl]
  simp

theorem two_mem_two_le_length {α : Type} (l : List α) (a b : α)
    (ha : a ∈ l) (hb : b ∈ l) (hab : a ≠ b) : 2 ≤ l.length := by
  cases l with
  | nil => cases ha
  | cons x l =>
    cases l with
    | nil =>
      simp at ha hb
      exact absurd (ha.trans hb.symm) hab
    | cons y l =>
      simp [List.length_cons]

/-- `_make_unique_names`, characterized: an id in a collision group (two or
more ids sharing its chosen name) is rewritten to `"<name> (<id>)"`, any other
id keeps its chosen name, and ids outside the map stay outside. -/
theorem makeUniqueNames_get? (d : List (ℤ × String))
    (hnd : (d.map Prod.fst).Nodup) :
    (∀ (pid : ℤ) (nm : String), dictGet? d pid = some nm →
      dictGet? (makeUniqueNames d) pid =
        if 2 ≤ (groupPids d nm).length
        then some (nm ++ " (" ++ pyStr pid ++ ")")
        else some nm) ∧
    (∀ pid : ℤ, dictGet? d pid = none → dictGet? (makeUniqueNames d) pid = none) := by
  have hspec : ∀ g ∈ buildNameToPids d, g.2 = groupPids d g.1 := by
    intro g hg
    obtain ⟨hg2, _⟩ := mem_buildNameToPids d g.1 g.2 (by
      cases g
      exact hg)
    exact hg2
  have hkey := rewriteFold_get? d hnd (buildNameToPids d) d hspec
    (nodupKeys_buildNameToPids d)
  constructor
  · intro pid nm hdnm
    rw [makeUniqueNames]
    rw [(hkey pid).1 nm hdnm]
    have hcond : (∃ g ∈ buildNameToPids d, g.1 = nm ∧ 2 ≤ g.2.length) ↔
        2 ≤ (groupPids d nm).length := by
      constructor
      · rintro ⟨g, hg, hnm, hlen⟩
        rw [← hnm, ← hspec g hg]
        exact hlen
      · intro hlen
        have hne : groupPids d nm ≠ [] := by
          intro h0
          rw [h0] at hlen
          simp at hlen
        have hget : dictGet? (buildNameToPids d) nm = some (groupPids d nm) := by
          rw [buildNameToPids_get? d nm, if_neg hne]
        exact ⟨(nm, groupPids d nm),
          mem_of_dictGet?_eq (buildNameToPids d) nm (groupPids d nm) hget, rfl, hlen⟩
    by_cases hc : 2 ≤ (groupPids d nm).length
    · rw [if_pos (hcond.mpr hc), if_pos hc]
    · rw [if_neg (fun h => hc (hcond.mp h)), if_neg hc]
      exact hdnm
  · intro pid hdn
    rw [makeUniqueNames]
    rw [(hkey pid).2 hdn]
    exact hdn

/-- C5 (amended). On a canonical map with unique identifier keys in which no
chosen name contains the character "(", every identifier whose chosen name is
shared by another identifier is rewritten to `"<name> (<identifier>)"`, every
other identifier keeps its chosen name, and the resulting mapping is
injective. -/
theorem canonical_names_unique (d : List (ℤ × String))
    (hnd : (d.map Prod.fst).Nodup)
    (hparen : ∀ p ∈ d, ∀ ch ∈ p.2.data, ch ≠ '(') :
    (∀ (pid : ℤ) (nm : String), dictGet? d pid = some nm →
      (2 ≤ (groupPids d nm).length →
        dictGet? (makeUniqueNames d) pid = some (nm ++ " (" ++ pyStr pid ++ ")")) ∧
      ((groupPids d nm).length ≤ 1 →
        dictGet? (makeUniqueNames d) pid = some nm)) ∧
    (∀ (p1 p2 : ℤ) (s : String),
      dictGet? (makeUniqueNames d) p1 = some s →
      dictGet? (makeUniqueNames d) p2 = some s → p1 = p2) := by
  obtain ⟨hchar, hnone⟩ := makeUniqueNames_get? d hnd
  have hparen' : ∀ (pid : ℤ) (nm : String), dictGet? d pid = some nm →
      '(' ∉ nm.data ++ [' '] := by
    intro pid nm hdnm hmem
    rcases List.mem_append.mp hmem with hm | hm
    · exact hparen (pid, nm) (mem_of_dictGet?_eq d pid nm hdnm) '(' hm rfl
    · simp at hm
  constructor
  · intro pid nm hdnm
    constructor
    · intro hlen
      rw [hchar pid nm hdnm, if_pos hlen]
    · intro hlen
      rw [hchar pid nm hdnm, if_neg (by omega)]
  · intro p1 p2 s h1 h2
    by_contra hne
    have hd1 : ∃ nm1, dictGet? d p1 = some nm1 := by
      cases hc : dictGet? d p1 with
      | none =>
        rw [hnone p1 hc] at h1
        cases h1
      | some nm1 => exact ⟨nm1, rfl⟩
    have hd2 : ∃ nm2, dictGet? d p2 = some nm2 := by
      cases hc : dictGet? d p2 with
      | none =>
        rw [hnone p2 hc] at h2
        cases h2
      | some nm2 => exact ⟨nm2, rfl⟩
    obtain ⟨nm1, hdn1⟩ := hd1
    obtain ⟨nm2, hdn2⟩ := hd2
    have he1 : (if 2 ≤ (groupPids d nm1).length
        then some (nm1 ++ " (" ++ pyStr p1 ++ ")") else some nm1) = some s :=
      (hchar p1 nm1 hdn1).symm.trans h1
    have he2 : (if 2 ≤ (groupPids d nm2).length
        then some (nm2 ++ " (" ++ pyStr p2 ++ ")") else some nm2) = some s :=
      (hchar p2 nm2 hdn2).symm.trans h2
    by_cases hl1 : 2 ≤ (groupPids d nm1).length <;>
      by_cases hl2 : 2 ≤ (groupPids d nm2).length
    · rw [if_pos hl1] at he1
      rw [if_pos hl2] at he2
      have hs1 : nm1 ++ " (" ++ pyStr p1 ++ ")" = s := Option.some.injEq .. ▸ he1
      have hs2 : nm2 ++ " (" ++ pyStr p2 ++ ")" = s := Option.some.injEq .. ▸ he2
      have hdata := congrArg String.data (hs1.trans hs2.symm)
      rw [rewritten_data, rewritten_data] at hdata
      obtain ⟨_, hB⟩ := append_cons_inj '(' _ _ _ _
        (hparen' p1 nm1 hdn1) (hparen' p2 nm2 hdn2) hdata
      obtain ⟨hC, _⟩ := concat_inj _ _ _ _ hB
      have : pyStr p1 = pyStr p2 := by
        cases hp1 : pyStr p1
        cases hp2 : pyStr p2
        rw [hp1, hp2] at hC
        simp only [String.data] at hC
        rw [hC]
      exact hne (pyStr_injective p1 p2 this)
    · rw [if_pos hl1] at he1
      rw [if_neg hl2] at he2
      have hs1 : nm1 ++ " (" ++ pyStr p1 ++ ")" = s := Option.some.injEq .. ▸ he1
      have hs2 : nm2 = s := Option.some.injEq .. ▸ he2
      have hpmem : '(' ∈ s.data := by
        rw [← hs1, rewritten_data]
        exact List.mem_append.mpr (Or.inr (List.mem_cons_self _ _))
      rw [← hs2] at hpmem
      exact hparen (p2, nm2) (mem_of_dictGet?_eq d p2 nm2 hdn2) '(' hpmem rfl
    · rw [if_neg hl1] at he1
      rw [if_pos hl2] at he2
      have hs1 : nm1 = s := Option.some.injEq .. ▸ he1
      have hs2 : nm2 ++ " (" ++ pyStr p2 ++ ")" = s := Option.some.injEq .. ▸ he2
      have hpmem : '(' ∈ s.data := by
        rw [← hs2, rewritten_data]
        exact List.mem_append.mpr (Or.inr (List.mem_cons_self _ _))
      rw [← hs1] at hpmem
      exact hparen (p1, nm1) (mem_of_dictGet?_eq d p1 nm1 hdn1) '(' hpmem rfl
    · rw [if_neg hl1] at he1
      rw [if_neg hl2] at he2
      have hs1 : nm1 = s := Option.some.injEq .. ▸ he1
      have hs2 : nm2 = s := Option.some.injEq .. ▸ he2
      have hm1 : p1 ∈ groupPids d s := by
        rw [← hs1]
        exact (mem_groupPids d nm1 p1).mpr (mem_of_dictGet?_eq d p1 nm1 hdn1)
      have hm2 : p2 ∈ groupPids d s := by
        rw [← hs2]
        exact (mem_groupPids d nm2 p2).mpr (mem_of_dictGet?_eq d p2 nm2 hdn2)
      have h2le := two_mem_two_le_length (groupPids d s) p1 p2 hm1 hm2 hne
      rw [hs1] at hl1
      exact hl1 h2le

/-- The canonical map of the witness: two ids share "a", one id holds "b". -/
def smallNameMap : List (ℤ × String) := [(1, "a"), (2, "a"), (3, "b")]

theorem canonical_names_unique_witness :
    (∀ (pid : ℤ) (nm : String), dictGet? smallNameMap pid = some nm →
      (2 ≤ (groupPids smallNameMap nm).length →
        dictGet? (makeUniqueNames smallNameMap) pid =
          some (nm ++ " (" ++ pyStr pid ++ ")")) ∧
      ((groupPids smallNameMap nm).length ≤ 1 →
        dictGet? (makeUniqueNames smallNameMap) pid = some nm)) ∧
    (∀ (p1 p2 : ℤ) (s : String),
      dictGet? (makeUniqueNames smallNameMap) p1 = some s →
      dictGet? (makeUniqueNames smallNameMap) p2 = some s → p1 = p2) :=
  canonical_names_unique smallNameMap (by decide) (by decide)

end AnubisElo
